import Mathlib

set_option maxRecDepth 8000

/-!
Verification of the AuroraOS kernel core (f-ratOS repository) against its
natural-language specification.  The C sources under `src/kernel/` are
shallowly embedded: global mutable kernel state becomes explicit state
records, machine integers become `Nat`/`Int` (with explicit wrapping where
the C code can overflow), and hardware side effects (port I/O, MSR writes,
TLB flushes) are dropped because they do not influence the data the claims
are about.  Each subsystem keeps the names of the C functions it embeds.
-/

/-! # Timer (src/kernel/timer.c)

`timer_state` is the file-static struct `{ticks, frequency, initialized,
callback}`; the callback is code, not data, and is omitted.
-/

structure TimerState where
  ticks : Nat
  frequency : Nat
  initialized : Bool

/-- `timer_get_milliseconds` (timer.c:71-74): guarded division by the
frequency. -/
def timer_get_milliseconds (st : TimerState) : Nat :=
  if st.frequency = 0 then 0 else st.ticks * 1000 / st.frequency

/-- `timer_get_seconds` (timer.c:79-82): guarded division by the
frequency. -/
def timer_get_seconds (st : TimerState) : Nat :=
  if st.frequency = 0 then 0 else st.ticks / st.frequency

/-! # Syscall interface (src/kernel/syscall.c, syscall.h)

Error codes from syscall.h:38-47 and the dispatcher from
syscall.c:180-209.  The environment visible to the embedded handlers is
the console byte sink: `console_print` drains the bytes of a C string up
to (and not including) its NUL terminator.
-/

def SYSCALL_MAX : Nat := 15
def ESUCCESS : Nat := 0
def EINVAL : Nat := 1
def ENOSYS : Nat := 2
def EBADF : Nat := 3
def STDIN_FILENO : Nat := 0
def STDOUT_FILENO : Nat := 1
def STDERR_FILENO : Nat := 2

/-- The console sink: the list of bytes drained so far. -/
structure SysEnv where
  console : List Nat

/-- `console_print(s)`: the console consumes the bytes of the C string `s`
up to its first NUL byte. -/
def console_print (env : SysEnv) (s : List Nat) : SysEnv :=
  { env with console := env.console ++ s.takeWhile (fun b => b ≠ 0) }

/-- Cast of a `uint64_t` value to `int64_t`, as in `return (int64_t)count`
(syscall.c:83). -/
def int64_of_uint64 (n : Nat) : Int :=
  if n < 2 ^ 63 then (n : Int) else (n : Int) - 2 ^ 64

/-- The loop body of `sys_write` (syscall.c:77-81): each byte is wrapped
into the two-character C string `{str[i], '\0'}` and handed to
`console_print`, so a NUL byte in the buffer is dropped by the sink. -/
def sys_write_loop (str : Nat → Nat) (env : SysEnv) : Nat → SysEnv
  | 0 => env
  | i + 1 => console_print (sys_write_loop str env i) [str i, 0]

/-- `sys_write(fd, buf, count)` (syscall.c:63-84).  A C buffer is `none`
when the pointer is NULL and otherwise a byte map. -/
def sys_write (env : SysEnv) (fd : Nat) (buf : Option (Nat → Nat))
    (count : Nat) : Int × SysEnv :=
  if fd ≠ STDOUT_FILENO ∧ fd ≠ STDERR_FILENO then (-(EBADF : Int), env)
  else
    match buf with
    | none => (-(EINVAL : Int), env)
    | some str => (int64_of_uint64 count, sys_write_loop str env count)

/-- The dispatcher's statistics struct `syscall_state` (syscall.c:21-25). -/
structure SyscallState where
  total_syscalls : Nat
  syscall_counts : Nat → Nat
  initialized : Bool

/-- The state-resetting part of `syscall_init` (syscall.c:214-251); the MSR
writes configure hardware and carry no dispatcher-visible data. -/
def syscall_init : SyscallState :=
  { total_syscalls := 0, syscall_counts := fun _ => 0, initialized := true }

/-- A handler entry of `syscall_table`: six arguments plus the environment. -/
def SyscallFn : Type :=
  Nat → Nat → Nat → Nat → Nat → Nat → SysEnv → Int × SysEnv

/-- `syscall_handler` (syscall.c:180-209).  The static `syscall_table` is a
parameter (`none` models a NULL entry); the branch for `syscall_num >
SYSCALL_MAX` is taken before the table is consulted. -/
def syscall_handler (table : Nat → Option SyscallFn) (st : SyscallState)
    (env : SysEnv) (n a1 a2 a3 a4 a5 a6 : Nat) : Int × SyscallState × SysEnv :=
  if st.initialized = false then (-(ENOSYS : Int), st, env)
  else
    let st1 : SyscallState := { st with total_syscalls := st.total_syscalls + 1 }
    if n > SYSCALL_MAX then (-(EINVAL : Int), st1, env)
    else
      let st2 : SyscallState :=
        { st1 with syscall_counts := fun k =>
            if k = n then st1.syscall_counts k + 1 else st1.syscall_counts k }
      match table n with
      | none => (-(ENOSYS : Int), st2, env)
      | some h =>
          let r := h a1 a2 a3 a4 a5 a6 env
          (r.1, st2, r.2)

/-! ## Timer theorems (claim C10) -/

/-- C10: with the timer frequency still 0 (timer not yet initialized), both
`timer_get_milliseconds` and `timer_get_seconds` return 0; the division by
the frequency sits in the other branch of the guard and is not reached. -/
theorem timer_zero_frequency_no_division (st : TimerState)
    (h : st.frequency = 0) :
    timer_get_milliseconds st = 0 ∧ timer_get_seconds st = 0 := by
  simp [timer_get_milliseconds, timer_get_seconds, h]

/-- Witness for C10 at a concrete timer state with 12345 ticks pending. -/
theorem timer_zero_frequency_no_division_witness :
    timer_get_milliseconds ⟨12345, 0, false⟩ = 0 ∧
      timer_get_seconds ⟨12345, 0, false⟩ = 0 :=
  timer_zero_frequency_no_division ⟨12345, 0, false⟩ rfl

/-! ## Dispatcher theorems (claim C1) -/

/-- C1, counterexample: after `syscall_init`, syscall number 99 returns
`-EINVAL` = -1, not `-ENOSYS` = -2 as the claim states (syscall.c:190-195
returns `-EINVAL` for numbers above `SYSCALL_MAX`). -/
theorem syscall_99_returns_minus_one_not_minus_two :
    (syscall_handler (fun _ => none) syscall_init ⟨[]⟩ 99 0 0 0 0 0 0).1 = -1 ∧
      (syscall_handler (fun _ => none) syscall_init ⟨[]⟩ 99 0 0 0 0 0 0).1 ≠ -2 := by
  constructor <;> decide

/-- C1 as amended: for every syscall number above `SYSCALL_MAX` = 15, any
table and any six arguments, the dispatcher after `syscall_init` returns
`-EINVAL` (-1); `-ENOSYS` is only returned for in-range table gaps or when
the dispatcher is not initialized. -/
theorem syscall_handler_above_max_returns_EINVAL
    (table : Nat → Option SyscallFn) (st : SyscallState) (env : SysEnv)
    (n a1 a2 a3 a4 a5 a6 : Nat) (hinit : st.initialized = true)
    (hn : n > 15) :
    (syscall_handler table st env n a1 a2 a3 a4 a5 a6).1 = -1 := by
  have hmax : n > SYSCALL_MAX := hn
  simp [syscall_handler, hinit, hmax, EINVAL]

/-- Witness for the amended C1 at syscall number 99 after `syscall_init`. -/
theorem syscall_handler_above_max_returns_EINVAL_witness :
    (syscall_handler (fun _ => none) syscall_init ⟨[]⟩ 99 1 2 3 4 5 6).1 = -1 :=
  syscall_handler_above_max_returns_EINVAL (fun _ => none) syscall_init ⟨[]⟩
    99 1 2 3 4 5 6 rfl (by decide)

/-! ## `sys_write` theorems (claim C8) -/

/-- The write loop drains exactly the non-NUL bytes of the buffer, in
order: each NUL byte terminates its one-character C string immediately. -/
theorem sys_write_loop_console (str : Nat → Nat) (env : SysEnv) :
    ∀ n, (sys_write_loop str env n).console =
      env.console ++ (((List.range n).map str).filter (fun b => b ≠ 0)) := by
  intro n
  induction n with
  | zero => simp [sys_write_loop]
  | succ k ih =>
      by_cases h : str k = 0 <;>
        simp [sys_write_loop, console_print, ih, List.range_succ, h,
          List.takeWhile]

/-- C8, counterexample: `write(1, buf, 1)` with `buf` holding the single
byte 0x00 returns 1 but the console observes no byte at all, so the handler
does not write "exactly the n bytes of buf". -/
theorem sys_write_drops_nul_bytes :
    (sys_write ⟨[]⟩ 1 (some (fun _ => 0)) 1).1 = 1 ∧
      ((sys_write ⟨[]⟩ 1 (some (fun _ => 0)) 1).2).console = [] ∧
      ((sys_write ⟨[]⟩ 1 (some (fun _ => 0)) 1).2).console ≠ [0] := by
  refine ⟨by decide, ?_, ?_⟩ <;>
    simp [sys_write, STDOUT_FILENO, STDERR_FILENO, int64_of_uint64,
      sys_write_loop, console_print, List.takeWhile]

/-- C8 as amended: `sys_write` returns `-EBADF` (-3) when fd is neither 1
nor 2, `-EINVAL` (-1) when fd is 1 or 2 and the buffer is NULL, and
otherwise returns n (for n below 2^63, the int64 range) and the console
observes, in order, those of the first n buffer bytes that are not NUL —
NUL bytes are dropped because each byte travels as a NUL-terminated
one-character string. -/
theorem sys_write_spec (env : SysEnv) (fd count : Nat) (str : Nat → Nat) :
    (fd ≠ 1 ∧ fd ≠ 2 →
      ∀ buf, sys_write env fd buf count = (-3, env)) ∧
    ((fd = 1 ∨ fd = 2) →
      sys_write env fd none count = (-1, env)) ∧
    ((fd = 1 ∨ fd = 2) → count < 2 ^ 63 →
      (sys_write env fd (some str) count).1 = (count : Int) ∧
      ((sys_write env fd (some str) count).2).console =
        env.console ++ (((List.range count).map str).filter (fun b => b ≠ 0))) := by
  refine ⟨?_, ?_, ?_⟩
  · intro hfd buf
    simp [sys_write, STDOUT_FILENO, STDERR_FILENO, hfd.1, hfd.2, EBADF]
  · intro hfd
    rcases hfd with h | h <;>
      simp [sys_write, STDOUT_FILENO, STDERR_FILENO, h, EINVAL]
  · intro hfd hcount
    have h1 : (sys_write env fd (some str) count) =
        (int64_of_uint64 count, sys_write_loop str env count) := by
      rcases hfd with h | h <;>
        simp [sys_write, STDOUT_FILENO, STDERR_FILENO, h]
    rw [h1]
    refine ⟨?_, sys_write_loop_console str env count⟩
    have hc : count < 9223372036854775808 := by
      calc count < 2 ^ 63 := hcount
        _ = 9223372036854775808 := by norm_num
    simp [int64_of_uint64, hc]

/-- Witness for the amended C8: all three branches at concrete inputs —
`write(5, _, _)` is -3, `write(1, NULL, 7)` is -1, and `write(1, "hi", 2)`
returns 2 with bytes 'h','i' (104, 105) on the console. -/
theorem sys_write_spec_witness :
    sys_write ⟨[]⟩ 5 none 3 = (-3, ⟨[]⟩) ∧
      sys_write ⟨[]⟩ 1 none 7 = (-1, ⟨[]⟩) ∧
      (sys_write ⟨[]⟩ 1 (some (fun i => if i = 0 then 104 else 105)) 2).1 = 2 ∧
      ((sys_write ⟨[]⟩ 1 (some (fun i => if i = 0 then 104 else 105)) 2).2).console =
        [104, 105] := by
  have h5 := (sys_write_spec ⟨[]⟩ 5 3 (fun _ => 0)).1 (by decide) none
  have h1 := (sys_write_spec ⟨[]⟩ 1 7 (fun _ => 0)).2.1 (Or.inl rfl)
  have h2 := (sys_write_spec ⟨[]⟩ 1 2
    (fun i => if i = 0 then 104 else 105)).2.2 (Or.inl rfl) (by norm_num)
  exact ⟨h5, h1, h2.1, by simpa using h2.2⟩

/-! # Physical Memory Manager (src/kernel/pmm.c)

The 1 MiB byte array `page_bitmap` is embedded at page granularity: the
model's `bitmap` maps a page-frame number to its allocation bit (`true` =
allocated), abstracting the `bit / 8` byte packing of `bitmap_set`,
`bitmap_clear` and `bitmap_test` (pmm.c:38-50).  `ADDR_TO_PAGE` and
`PAGE_TO_ADDR` are the shifts by 12, written as division/multiplication
by `PAGE_SIZE`.
-/

def PAGE_SIZE : Nat := 4096
def BITMAP_SIZE : Nat := 1024 * 1024
def MEMORY_TYPE_AVAILABLE : Nat := 1

/-- `memory_descriptor_t` (boot.h:14-20); `attr` mirrors the `attribute`
field, which clashes with a Lean keyword. -/
structure memory_descriptor where
  type : Nat
  physical_start : Nat
  virtual_start : Nat
  number_of_pages : Nat
  attr : Nat

structure PMMState where
  bitmap : Nat → Bool
  total_pages : Nat
  free_pages : Nat
  used_pages : Nat
  highest_page : Nat
  initialized : Bool

def bitmap_set (bm : Nat → Bool) (bit : Nat) : Nat → Bool :=
  fun p => if p = bit then true else bm p

def bitmap_clear (bm : Nat → Bool) (bit : Nat) : Nat → Bool :=
  fun p => if p = bit then false else bm p

def bitmap_test (bm : Nat → Bool) (bit : Nat) : Bool := bm bit

/-- First pass of `pmm_init` over the memory map (pmm.c:124-140):
accumulates the highest end page and the total of conventional pages. -/
def pmm_init_first_pass (highest total : Nat) :
    List memory_descriptor → Nat × Nat
  | [] => (highest, total)
  | e :: rest =>
      let start_page := e.physical_start / PAGE_SIZE
      let end_page := start_page + e.number_of_pages
      let highest1 := if end_page > highest then end_page else highest
      let total1 :=
        if e.type = MEMORY_TYPE_AVAILABLE then total + e.number_of_pages
        else total
      pmm_init_first_pass highest1 total1 rest

/-- The marking loop of the second pass (pmm.c:182-185): clear `n` bits
starting at `page`, counting each as a newly free page. -/
def pmm_mark_free_loop (bm : Nat → Bool) (free page : Nat) :
    Nat → (Nat → Bool) × Nat
  | 0 => (bm, free)
  | n + 1 => pmm_mark_free_loop (bitmap_clear bm page) (free + 1) (page + 1) n

/-- Second pass of `pmm_init` (pmm.c:159-186): mark each conventional
entry's pages free, clipped to the bitmap's `highest_page`. -/
def pmm_second_pass (highest : Nat) (bm : Nat → Bool) (free : Nat) :
    List memory_descriptor → (Nat → Bool) × Nat
  | [] => (bm, free)
  | e :: rest =>
      if e.type ≠ MEMORY_TYPE_AVAILABLE then
        pmm_second_pass highest bm free rest
      else
        let start_page := e.physical_start / PAGE_SIZE
        let num_pages := e.number_of_pages
        if start_page ≥ highest then pmm_second_pass highest bm free rest
        else
          let num_pages1 :=
            if start_page + num_pages > highest then highest - start_page
            else num_pages
          let r := pmm_mark_free_loop bm free start_page num_pages1
          pmm_second_pass highest r.1 r.2 rest

/-- The reservation loops of `pmm_init` (pmm.c:190-197 and 202-209): set
each clear bit in the range, decrementing `free_pages` while positive. -/
def pmm_reserve_loop (bm : Nat → Bool) (free page : Nat) :
    Nat → (Nat → Bool) × Nat
  | 0 => (bm, free)
  | n + 1 =>
      if !bitmap_test bm page then
        pmm_reserve_loop (bitmap_set bm page)
          (if free > 0 then free - 1 else free) (page + 1) n
      else pmm_reserve_loop bm free (page + 1) n

/-- The no-memory-map fallback of `pmm_init` (pmm.c:77-111): assume 16 MiB
with the first 1 MiB reserved. -/
def pmm_init_default : PMMState :=
  let default_pages := 16 * 1024 * 1024 / PAGE_SIZE
  let reserved_pages := 1 * 1024 * 1024 / PAGE_SIZE
  let r := pmm_mark_free_loop (fun _ => true) 0 reserved_pages
    (default_pages - reserved_pages)
  { bitmap := r.1, total_pages := default_pages, free_pages := r.2,
    used_pages := default_pages - r.2, highest_page := default_pages,
    initialized := true }

/-- `pmm_init` (pmm.c:55-216).  The bitmap starts fully set (the 0xFF
loop); a missing or empty memory map takes the default path; otherwise the
two passes run, then the first 1 MiB (pages 0..255) and the kernel image
range 1-2 MiB (pages 256..511) are re-reserved. -/
def pmm_init (memory_map : Option (List memory_descriptor)) : PMMState :=
  match memory_map with
  | none => pmm_init_default
  | some [] => pmm_init_default
  | some entries =>
      let fp := pmm_init_first_pass 0 0 entries
      let required_bitmap_bytes := (fp.1 + 7) / 8
      let highest :=
        if required_bitmap_bytes > BITMAP_SIZE then BITMAP_SIZE * 8 else fp.1
      let sp := pmm_second_pass highest (fun _ => true) 0 entries
      let lo := pmm_reserve_loop sp.1 sp.2 0 256
      let kr := pmm_reserve_loop lo.1 lo.2 256 256
      { bitmap := kr.1, total_pages := fp.2, free_pages := kr.2,
        used_pages := fp.2 - kr.2, highest_page := highest,
        initialized := true }

/-- The first-fit scan of `pmm_alloc_frame` (pmm.c:237-254): the first
clear bit below `n`, scanning upward from page 0. -/
def pmm_find_free (bm : Nat → Bool) : Nat → Option Nat
  | 0 => none
  | n + 1 =>
      match pmm_find_free bm n with
      | some p => some p
      | none => if !bitmap_test bm n then some n else none

/-- `pmm_alloc_frame` (pmm.c:221-258): first-fit allocation returning the
physical address, or 0 when uninitialized or exhausted. -/
def pmm_alloc_frame (st : PMMState) : Nat × PMMState :=
  if st.initialized = false then (0, st)
  else if st.free_pages = 0 then (0, st)
  else
    match pmm_find_free st.bitmap st.highest_page with
    | none => (0, st)
    | some page =>
        (page * PAGE_SIZE,
          { st with
              bitmap := bitmap_set st.bitmap page,
              free_pages := st.free_pages - 1,
              used_pages := st.used_pages + 1 })

/-- `pmm_free_frame` (pmm.c:303-318): clear the bit when in range and
currently set; out-of-range and already-free addresses are ignored. -/
def pmm_free_frame (st : PMMState) (addr : Nat) : PMMState :=
  if st.initialized = false then st
  else
    let page := addr / PAGE_SIZE
    if page ≥ st.highest_page then st
    else if bitmap_test st.bitmap page then
      { st with
          bitmap := bitmap_clear st.bitmap page,
          free_pages := st.free_pages + 1,
          used_pages := st.used_pages - 1 }
    else st

/-- Successive `pmm_alloc_frame` calls: the list of returned addresses and
the final state. -/
def pmm_alloc_seq : PMMState → Nat → List Nat × PMMState
  | st, 0 => ([], st)
  | st, n + 1 =>
      let r := pmm_alloc_frame st
      let rest := pmm_alloc_seq r.2 n
      (r.1 :: rest.1, rest.2)

/-! ## PMM closed forms

The marking / reservation loops of `pmm_init` admit closed forms, proved
by induction on the loop counter. -/

theorem pmm_mark_free_loop_fst (n : Nat) :
    ∀ (bm : Nat → Bool) (free page p : Nat),
      (pmm_mark_free_loop bm free page n).1 p =
        if page ≤ p ∧ p < page + n then false else bm p := by
  induction n with
  | zero =>
      intro bm free page p
      have h : ¬(page ≤ p ∧ p < page + 0) := by omega
      rw [pmm_mark_free_loop, if_neg h]
  | succ k ih =>
      intro bm free page p
      rw [pmm_mark_free_loop, ih]
      by_cases hp : p = page
      · subst hp
        have h1 : ¬(p + 1 ≤ p ∧ p < p + 1 + k) := by omega
        have h2 : p ≤ p ∧ p < p + (k + 1) := by omega
        simp [h1, h2, bitmap_clear]
      · have hiff : (page + 1 ≤ p ∧ p < page + 1 + k) ↔
            (page ≤ p ∧ p < page + (k + 1)) := by omega
        simp [bitmap_clear, hp, hiff]

theorem pmm_mark_free_loop_snd (n : Nat) :
    ∀ (bm : Nat → Bool) (free page : Nat),
      (pmm_mark_free_loop bm free page n).2 = free + n := by
  induction n with
  | zero => intro bm free page; rfl
  | succ k ih =>
      intro bm free page
      rw [pmm_mark_free_loop, ih]
      omega

theorem pmm_mark_free_loop_eq (bm : Nat → Bool) (free page n : Nat) :
    pmm_mark_free_loop bm free page n =
      (fun p => if page ≤ p ∧ p < page + n then false else bm p, free + n) := by
  have h1 : (pmm_mark_free_loop bm free page n).1 =
      fun p => if page ≤ p ∧ p < page + n then false else bm p :=
    funext fun p => pmm_mark_free_loop_fst n bm free page p
  calc pmm_mark_free_loop bm free page n
      = ((pmm_mark_free_loop bm free page n).1,
         (pmm_mark_free_loop bm free page n).2) := rfl
    _ = _ := by rw [h1, pmm_mark_free_loop_snd]

theorem pmm_reserve_loop_all_set (n : Nat) :
    ∀ (bm : Nat → Bool) (free page : Nat),
      (∀ p, page ≤ p → p < page + n → bm p = true) →
      pmm_reserve_loop bm free page n = (bm, free) := by
  induction n with
  | zero => intro bm free page _; rfl
  | succ k ih =>
      intro bm free page h
      have hpage : bm page = true := h page (Nat.le_refl page) (by omega)
      rw [pmm_reserve_loop]
      simp only [bitmap_test, hpage, Bool.not_true, Bool.false_eq_true,
        if_false]
      exact ih bm free (page + 1) fun p hp1 hp2 => h p (by omega) (by omega)

theorem pmm_reserve_loop_all_free (n : Nat) :
    ∀ (bm : Nat → Bool) (free page : Nat),
      (∀ p, page ≤ p → p < page + n → bm p = false) → n ≤ free →
      pmm_reserve_loop bm free page n =
        (fun p => if page ≤ p ∧ p < page + n then true else bm p, free - n) := by
  induction n with
  | zero =>
      intro bm free page _ _
      have h1 : (fun p => if page ≤ p ∧ p < page + 0 then true else bm p) = bm :=
        funext fun p => if_neg (by omega)
      rw [pmm_reserve_loop, h1, Nat.sub_zero]
  | succ k ih =>
      intro bm free page h hn
      have hpage : bm page = false := h page (Nat.le_refl page) (by omega)
      have hfree : 0 < free := by omega
      rw [pmm_reserve_loop]
      simp only [bitmap_test, hpage, Bool.not_false, if_true, if_pos hfree]
      rw [ih (bitmap_set bm page) (free - 1) (page + 1)
        (fun p hp1 hp2 => by
          have hne : p ≠ page := by omega
          have hb : bitmap_set bm page p = bm p := if_neg hne
          rw [hb]
          exact h p (by omega) (by omega))
        (by omega)]
      have hfst : (fun p => if page + 1 ≤ p ∧ p < page + 1 + k then true
          else bitmap_set bm page p) =
          fun p => if page ≤ p ∧ p < page + (k + 1) then true else bm p := by
        funext p
        by_cases hp : p = page
        · subst hp
          have h1 : ¬(p + 1 ≤ p ∧ p < p + 1 + k) := by omega
          have h2 : p ≤ p ∧ p < p + (k + 1) := by omega
          simp [h1, h2, bitmap_set]
        · have hiff : (page + 1 ≤ p ∧ p < page + 1 + k) ↔
              (page ≤ p ∧ p < page + (k + 1)) := by omega
          simp [bitmap_set, hp, hiff]
      rw [hfst]
      have hsub : free - 1 - k = free - (k + 1) := by omega
      rw [hsub]

theorem pmm_find_free_none (n : Nat) :
    ∀ (bm : Nat → Bool), (∀ q, q < n → bm q = true) →
      pmm_find_free bm n = none := by
  induction n with
  | zero => intro bm _; rfl
  | succ k ih =>
      intro bm h
      rw [pmm_find_free, ih bm fun q hq => h q (by omega)]
      simp [bitmap_test, h k (by omega)]

theorem pmm_find_free_least (bm : Nat → Bool) (m : Nat)
    (hm : bm m = false) (hlow : ∀ q, q < m → bm q = true) :
    ∀ n, m < n → pmm_find_free bm n = some m := by
  intro n
  induction n with
  | zero => intro h; omega
  | succ k ih =>
      intro h
      rw [pmm_find_free]
      rcases Nat.lt_or_ge m k with hk | hk
      · rw [ih hk]
      · have hmk : m = k := by omega
        subst hmk
        rw [pmm_find_free_none m bm hlow]
        simp [bitmap_test, hm]

/-! ## The S1 scenario (claim C6)

The boot memory map declares exactly pages 256..4095 (1 MiB - 16 MiB) as
conventional memory. -/

def pmm_c6_desc : memory_descriptor :=
  { type := 1, physical_start := 0x100000, virtual_start := 0,
    number_of_pages := 3840, attr := 0 }

def pmm_c6_map : List memory_descriptor := [pmm_c6_desc]

/-- Bitmap after the second pass of `pmm_init` on the S1 map: pages
256..4095 free, everything else allocated. -/
def pmm_c6_bmA : Nat → Bool :=
  fun p => if 256 ≤ p ∧ p < 4096 then false else true

/-- The PMM state after `pmm_init` on the S1 map and `k` subsequent
single-frame allocations: free pages are exactly `512 + k` .. 4095,
because init re-reserves the kernel image range (pages 256..511). -/
def pmm_c6_state (k : Nat) : PMMState where
  bitmap := fun p => if 512 + k ≤ p ∧ p < 4096 then false else true
  total_pages := 3840
  free_pages := 3584 - k
  used_pages := 256 + k
  highest_page := 4096
  initialized := true

theorem pmm_second_pass_c6 :
    pmm_second_pass 4096 (fun _ => true) 0 [pmm_c6_desc] = (pmm_c6_bmA, 3840) := by
  have h1 : pmm_second_pass 4096 (fun _ => true) 0 [pmm_c6_desc] =
      pmm_second_pass 4096
        (pmm_mark_free_loop (fun _ => true) 0 256 3840).1
        (pmm_mark_free_loop (fun _ => true) 0 256 3840).2 [] := rfl
  rw [h1, pmm_mark_free_loop_eq]
  show (fun p => if 256 ≤ p ∧ p < 256 + 3840 then false else (fun _ => true) p,
      0 + 3840) = (pmm_c6_bmA, 3840)
  have hbm : (fun p => if 256 ≤ p ∧ p < 256 + 3840 then false
      else (fun _ => true) p) = pmm_c6_bmA := by
    funext p
    simp [pmm_c6_bmA]
  rw [hbm]

theorem pmm_init_c6 : pmm_init (some pmm_c6_map) = pmm_c6_state 0 := by
  have hfp : pmm_init_first_pass 0 0 [pmm_c6_desc] = (4096, 3840) := by
    simp only [pmm_init_first_pass, pmm_c6_desc, PAGE_SIZE,
      MEMORY_TYPE_AVAILABLE]
    norm_num
  have hlo : pmm_reserve_loop pmm_c6_bmA 3840 0 256 = (pmm_c6_bmA, 3840) := by
    apply pmm_reserve_loop_all_set
    intro p hp1 hp2
    rw [pmm_c6_bmA]
    exact if_neg (by omega)
  have hkr : pmm_reserve_loop pmm_c6_bmA 3840 256 256 =
      (fun p => if 256 ≤ p ∧ p < 256 + 256 then true else pmm_c6_bmA p,
        3840 - 256) := by
    apply pmm_reserve_loop_all_free
    · intro p hp1 hp2
      rw [pmm_c6_bmA]
      exact if_pos (by omega)
    · omega
  simp only [pmm_c6_map, pmm_init]
  rw [hfp]
  norm_num [BITMAP_SIZE]
  rw [pmm_second_pass_c6]
  dsimp only
  rw [hlo]
  dsimp only
  rw [hkr]
  have hbm2 : (fun p => if 256 ≤ p ∧ p < 256 + 256 then true else pmm_c6_bmA p) =
      (fun p => if 512 ≤ p ∧ p < 4096 then false else true) := by
    funext p
    simp only [pmm_c6_bmA]
    by_cases h1 : p < 256
    · have ha : ¬(256 ≤ p ∧ p < 256 + 256) := by omega
      have hb : ¬(256 ≤ p ∧ p < 4096) := by omega
      have hc : ¬(512 ≤ p ∧ p < 4096) := by omega
      simp [ha, hb, hc]
    · by_cases h2 : p < 512
      · have ha : 256 ≤ p ∧ p < 256 + 256 := by omega
        have hc : ¬(512 ≤ p ∧ p < 4096) := by omega
        simp [ha, hc]
      · by_cases h3 : p < 4096
        · have ha : ¬(256 ≤ p ∧ p < 256 + 256) := by omega
          have hb : 256 ≤ p ∧ p < 4096 := by omega
          have hc : 512 ≤ p ∧ p < 4096 := by omega
          simp [ha, hb, hc]
        · have ha : ¬(256 ≤ p ∧ p < 256 + 256) := by omega
          have hb : ¬(256 ≤ p ∧ p < 4096) := by omega
          have hc : ¬(512 ≤ p ∧ p < 4096) := by omega
          simp [ha, hb, hc]
  rw [hbm2]
  simp only [pmm_c6_state]

theorem pmm_c6_alloc_step (k : Nat) (hk : k < 3584) :
    pmm_alloc_frame (pmm_c6_state k) =
      ((512 + k) * PAGE_SIZE, pmm_c6_state (k + 1)) := by
  have h1 : (pmm_c6_state k).initialized = true := rfl
  have h2 : (pmm_c6_state k).free_pages = 3584 - k := rfl
  have h3 : (pmm_c6_state k).highest_page = 4096 := rfl
  have h4 : ¬((3584 : Nat) - k = 0) := by omega
  have hfind : pmm_find_free (pmm_c6_state k).bitmap 4096 = some (512 + k) := by
    apply pmm_find_free_least
    · show (if 512 + k ≤ 512 + k ∧ 512 + k < 4096 then false else true) = false
      rw [if_pos (by omega)]
    · intro q hq
      show (if 512 + k ≤ q ∧ q < 4096 then false else true) = true
      rw [if_neg (by omega)]
    · omega
  rw [pmm_alloc_frame, h1, h2, h3, hfind, if_neg h4]
  simp only [Bool.true_eq_false, if_false]
  have hbm : bitmap_set (pmm_c6_state k).bitmap (512 + k) =
      (pmm_c6_state (k + 1)).bitmap := by
    funext p
    show (if p = 512 + k then true
        else if 512 + k ≤ p ∧ p < 4096 then false else true) =
      (if 512 + (k + 1) ≤ p ∧ p < 4096 then false else true)
    by_cases hp : p = 512 + k
    · rw [if_pos hp, if_neg (by omega)]
    · rw [if_neg hp]
      by_cases h5 : 512 + k ≤ p ∧ p < 4096
      · rw [if_pos h5, if_pos (by omega)]
      · rw [if_neg h5, if_neg (by omega)]
  rw [hbm]
  have e1 : 3584 - k - 1 = 3584 - (k + 1) := by omega
  have e2 : 256 + k + 1 = 256 + (k + 1) := by omega
  rw [show (pmm_c6_state k).used_pages = 256 + k from rfl, e1, e2]
  rfl

theorem pmm_c6_alloc_seq_eq (n : Nat) :
    ∀ k, k + n ≤ 3584 →
      pmm_alloc_seq (pmm_c6_state k) n =
        (((List.range n).map fun i => (512 + k + i) * PAGE_SIZE),
          pmm_c6_state (k + n)) := by
  induction n with
  | zero => intro k hk; simp [pmm_alloc_seq]
  | succ m ih =>
      intro k hk
      rw [pmm_alloc_seq, pmm_c6_alloc_step k (by omega)]
      dsimp only
      rw [ih (k + 1) (by omega)]
      dsimp only
      have hfun : (fun i => (512 + (k + 1) + i) * PAGE_SIZE) =
          fun i => (512 + k + (i + 1)) * PAGE_SIZE := by
        funext i
        have h : 512 + (k + 1) + i = 512 + k + (i + 1) := by omega
        rw [h]
      have hl : (512 + k) * PAGE_SIZE ::
          ((List.range m).map fun i => (512 + (k + 1) + i) * PAGE_SIZE) =
          (List.range (m + 1)).map fun i => (512 + k + i) * PAGE_SIZE := by
        rw [hfun, List.range_succ_eq_map, List.map_cons, List.map_map]
        simp [Function.comp]
      rw [hl, show k + 1 + m = k + (m + 1) from by omega]

/-- C6, counterexample: after `pmm_init` with a memory map declaring
exactly pages 256..4095 conventional, the first `pmm_alloc_frame` returns
the address of PFN 512, not PFN 256, because pmm.c:199-209 re-reserves the
kernel image range (1 MiB - 2 MiB, pages 256..511) after the map pass. -/
theorem pmm_first_alloc_is_pfn_512_not_256 :
    (pmm_alloc_frame (pmm_init (some pmm_c6_map))).1 = 512 * 4096 ∧
      (pmm_alloc_frame (pmm_init (some pmm_c6_map))).1 ≠ 256 * 4096 := by
  rw [pmm_init_c6, pmm_c6_alloc_step 0 (by omega)]
  constructor
  · norm_num [PAGE_SIZE]
  · norm_num [PAGE_SIZE]

/-- C6 as amended: on the S1 map the ten successive `pmm_alloc_frame`
calls return the addresses of PFNs 512, 513, ..., 521 (first-fit, low to
high, starting above the re-reserved kernel range); after
`pmm_free_frame` of PFN 260 the next `pmm_alloc_frame` does return the
address of PFN 260. -/
theorem pmm_s1_round_trip :
    (pmm_alloc_seq (pmm_init (some pmm_c6_map)) 10).1 =
      [512 * 4096, 513 * 4096, 514 * 4096, 515 * 4096, 516 * 4096,
       517 * 4096, 518 * 4096, 519 * 4096, 520 * 4096, 521 * 4096] ∧
    (pmm_alloc_frame (pmm_free_frame
        (pmm_alloc_seq (pmm_init (some pmm_c6_map)) 10).2 (260 * 4096))).1 =
      260 * 4096 := by
  rw [pmm_init_c6, pmm_c6_alloc_seq_eq 10 0 (by omega)]
  constructor
  · decide
  · dsimp only
    rw [show (0 : Nat) + 10 = 10 from rfl]
    have hfree : pmm_free_frame (pmm_c6_state 10) (260 * 4096) =
        { bitmap := bitmap_clear (pmm_c6_state 10).bitmap 260,
          total_pages := 3840, free_pages := 3575, used_pages := 265,
          highest_page := 4096, initialized := true } := by
      simp [pmm_free_frame, pmm_c6_state, PAGE_SIZE, bitmap_test]
    have hfind : pmm_find_free
        (bitmap_clear (pmm_c6_state 10).bitmap 260) 4096 = some 260 := by
      apply pmm_find_free_least
      · show (if (260 : Nat) = 260 then false
            else (pmm_c6_state 10).bitmap 260) = false
        rw [if_pos rfl]
      · intro q hq
        show (if q = 260 then false else (pmm_c6_state 10).bitmap q) = true
        rw [if_neg (by omega)]
        show (if 512 + 10 ≤ q ∧ q < 4096 then false else true) = true
        rw [if_neg (by omega)]
      · omega
    rw [hfree, pmm_alloc_frame]
    dsimp only
    simp only [Bool.true_eq_false, if_false]
    rw [if_neg (by norm_num : ¬(3575 : Nat) = 0), hfind]
    norm_num [PAGE_SIZE]

/-! # Kernel heap (src/kernel/kheap.c)

`block_header_t` (kheap.c:20-26) is a packed struct `{uint64_t size,
uint64_t flags, next, prev, uint32_t magic}`, so `HEADER_SIZE` =
8+8+8+8+4 = 36 bytes.  The heap's doubly linked block list always covers
the heap region contiguously (blocks are created by appending at
`heap_end`, by splitting in place and by merging neighbours), so it is
embedded as a `List (address × header)` ordered by address; the `next`/
`prev` pointers of the C struct are the list adjacencies.
-/

def HEADER_SIZE : Nat := 36
def BLOCK_MAGIC : Nat := 0xDEADBEEF
def BLOCK_FREE : Nat := 0x0
def BLOCK_USED : Nat := 0x1
def HEAP_START_ADDR : Nat := 0x200000
def HEAP_INITIAL_SIZE : Nat := 16 * 1024
def HEAP_MAX_SIZE : Nat := 16 * 1024 * 1024
def HEAP_MIN_BLOCK : Nat := 16

/-- `ALIGN_UP(addr, align)` (kheap.c:42) is `(addr+align-1) & ~(align-1)`,
written arithmetically; the two agree for the power-of-two alignments (8
and `PAGE_SIZE`) the heap uses. -/
def align_up (addr align : Nat) : Nat := (addr + align - 1) / align * align

structure block_header where
  size : Nat
  flags : Nat
  magic : Nat
deriving DecidableEq

structure heap_stats where
  total_size : Nat
  used_size : Nat
  free_size : Nat
  num_blocks : Nat
  num_free_blocks : Nat
  num_used_blocks : Nat
  num_allocations : Nat
  num_frees : Nat
deriving DecidableEq

structure HeapState where
  heap_start : Nat
  heap_end : Nat
  heap_size : Nat
  blocks : List (Nat × block_header)
  initialized : Bool
  stats : heap_stats
deriving DecidableEq

/-- `validate_block` (kheap.c:63-68); the NULL check is the list lookup. -/
def validate_block (b : block_header) : Bool :=
  if b.magic ≠ BLOCK_MAGIC then false
  else if b.size = 0 then false
  else true

/-- `find_free_block` (kheap.c:73-90): first-fit walk; a corrupted block
aborts the walk with NULL. -/
def find_free_block (size : Nat) :
    List (Nat × block_header) → Option (Nat × block_header)
  | [] => none
  | (a, b) :: rest =>
      if !validate_block b then none
      else if b.flags % 2 = 0 ∧ size ≤ b.size then some (a, b)
      else find_free_block size rest

/-- The list surgery of `split_block` (kheap.c:95-120): shrink the block at
`addr` to `size` and insert the remainder as a new free block right after
it; the returned flag reports whether a split happened (for the statistics
update). -/
def split_block_list (addr size : Nat) :
    List (Nat × block_header) → List (Nat × block_header) × Bool
  | [] => ([], false)
  | (a, b) :: rest =>
      if a = addr then
        if b.size < size + HEADER_SIZE + HEAP_MIN_BLOCK then
          ((a, b) :: rest, false)
        else
          ((a, { b with size := size }) ::
            (a + HEADER_SIZE + size,
              { size := b.size - size - HEADER_SIZE, flags := BLOCK_FREE,
                magic := BLOCK_MAGIC }) :: rest, true)
      else
        let r := split_block_list addr size rest
        ((a, b) :: r.1, r.2)

/-- `split_block` at the state level, with the stats update of
kheap.c:118-119. -/
def split_block (st : HeapState) (addr size : Nat) : HeapState :=
  let r := split_block_list addr size st.blocks
  { st with
      blocks := r.1,
      stats :=
        if r.2 then
          { st.stats with
              num_blocks := st.stats.num_blocks + 1,
              num_free_blocks := st.stats.num_free_blocks + 1 }
        else st.stats }

/-- Overwrite the flags word of the block at `addr` (`block->flags = ...`). -/
def set_block_flags (addr flags : Nat) :
    List (Nat × block_header) → List (Nat × block_header)
  | [] => []
  | (a, b) :: rest =>
      if a = addr then (a, { b with flags := flags }) :: rest
      else (a, b) :: set_block_flags addr flags rest

/-- The loop of `kheap_coalesce` (kheap.c:125-152): merge runs of adjacent
free blocks, counting merges; `fuel` is the loop's termination measure (the
C loop needs none because each step shortens or advances the chain). -/
def kheap_coalesce_loop : Nat → List (Nat × block_header) →
    List (Nat × block_header) × Nat
  | 0, l => (l, 0)
  | _ + 1, [] => ([], 0)
  | _ + 1, [ab] => ([ab], 0)
  | fuel + 1, (a, b) :: (a2, b2) :: rest =>
      if !validate_block b then ((a, b) :: (a2, b2) :: rest, 0)
      else if b.flags % 2 = 0 ∧ b2.flags % 2 = 0 then
        let r := kheap_coalesce_loop fuel
          ((a, { b with size := b.size + HEADER_SIZE + b2.size }) :: rest)
        (r.1, r.2 + 1)
      else
        let r := kheap_coalesce_loop fuel ((a2, b2) :: rest)
        ((a, b) :: r.1, r.2)

/-- `kheap_coalesce` at the state level (each merge removes one block and
one free block from the counters). -/
def kheap_coalesce (st : HeapState) : HeapState :=
  let r := kheap_coalesce_loop st.blocks.length st.blocks
  { st with
      blocks := r.1,
      stats := { st.stats with
        num_blocks := st.stats.num_blocks - r.2,
        num_free_blocks := st.stats.num_free_blocks - r.2 } }

/-- `kheap_expand` (kheap.c:157-239): grow by whole pages and append one
free block at the old `heap_end`, then coalesce.  The `pmm_alloc_frame` /
`vmm_map_page` calls of the page loop are modelled as succeeding; their
failure aborts the expansion before the block is appended. -/
def kheap_expand (st : HeapState) (size : Nat) : HeapState :=
  let size1 := align_up size PAGE_SIZE
  if st.heap_size + size1 > HEAP_MAX_SIZE then st
  else
    let st1 : HeapState :=
      { st with
          blocks := st.blocks ++
            [(st.heap_end,
              { size := size1 - HEADER_SIZE, flags := BLOCK_FREE,
                magic := BLOCK_MAGIC })],
          heap_end := st.heap_end + size1,
          heap_size := st.heap_size + size1,
          stats := { st.stats with
            total_size := st.stats.total_size + size1,
            free_size := st.stats.free_size + (size1 - HEADER_SIZE),
            num_blocks := st.stats.num_blocks + 1,
            num_free_blocks := st.stats.num_free_blocks + 1 } }
    kheap_coalesce st1

/-- The tail of `kmalloc` (kheap.c:272-285) once a free block is found:
split, mark used, update statistics, return the payload pointer.  The
block's post-split size is read back for the statistics, as the C code
reads `block->size` after `split_block`. -/
def kmalloc_finish (st : HeapState) (addr size1 : Nat) : Option Nat × HeapState :=
  let st1 := split_block st addr size1
  match st1.blocks.lookup addr with
  | none => (none, st1)
  | some b =>
      (some (addr + HEADER_SIZE),
        { st1 with
            blocks := set_block_flags addr BLOCK_USED st1.blocks,
            stats := { st1.stats with
              used_size := st1.stats.used_size + b.size,
              free_size := st1.stats.free_size - b.size,
              num_used_blocks := st1.stats.num_used_blocks + 1,
              num_free_blocks := st1.stats.num_free_blocks - 1,
              num_allocations := st1.stats.num_allocations + 1 } })

/-- `kmalloc` (kheap.c:244-286): size rounded up to 8 bytes, first fit,
with one heap expansion and retry when no block fits. -/
def kmalloc (st : HeapState) (size : Nat) : Option Nat × HeapState :=
  if st.initialized = false then (none, st)
  else if size = 0 then (none, st)
  else
    let size1 := align_up size 8
    match find_free_block size1 st.blocks with
    | some (addr, _) => kmalloc_finish st addr size1
    | none =>
        let st1 := kheap_expand st (align_up (size1 + HEADER_SIZE) PAGE_SIZE)
        match find_free_block size1 st1.blocks with
        | none => (none, st1)
        | some (addr, _) => kmalloc_finish st1 addr size1

/-- `kfree` (kheap.c:338-373): validate the header behind the payload
pointer, refuse a clear used-bit (double free), otherwise mark free,
update statistics and coalesce.  A payload pointer that does not belong
to any block would make the C code read unrelated memory; the embedding
leaves the state unchanged there, and the theorems only apply `kfree` to
genuine payload pointers. -/
def kfree (st : HeapState) (p : Nat) : HeapState :=
  if p = 0 then st
  else if st.initialized = false then st
  else
    match st.blocks.lookup (p - HEADER_SIZE) with
    | none => st
    | some b =>
        if !validate_block b then st
        else if b.flags % 2 = 0 then st
        else
          let st1 : HeapState :=
            { st with
                blocks := set_block_flags (p - HEADER_SIZE) BLOCK_FREE st.blocks,
                stats := { st.stats with
                  used_size := st.stats.used_size - b.size,
                  free_size := st.stats.free_size + b.size,
                  num_used_blocks := st.stats.num_used_blocks - 1,
                  num_free_blocks := st.stats.num_free_blocks + 1,
                  num_frees := st.stats.num_frees + 1 } }
          kheap_coalesce st1

/-- `kheap_init` (kheap.c:420-459): set the bounds at `HEAP_START_ADDR`,
expand by the initial 16 KiB, and mark initialized when that produced a
non-empty heap. -/
def kheap_init : HeapState :=
  let st0 : HeapState :=
    { heap_start := HEAP_START_ADDR, heap_end := HEAP_START_ADDR,
      heap_size := 0, blocks := [], initialized := false,
      stats := ⟨0, 0, 0, 0, 0, 0, 0, 0⟩ }
  let st1 := kheap_expand st0 HEAP_INITIAL_SIZE
  if st1.heap_size = 0 then st1
  else { st1 with initialized := true }

/-- Address-ordered contiguity of the block chain: each block's successor
header starts exactly at the end of its span, mirroring how kheap.c lays
blocks out back to back. -/
def blocks_chained : Nat → List (Nat × block_header) → Bool
  | _, [] => true
  | a0, (a, b) :: rest =>
      a == a0 && blocks_chained (a + HEADER_SIZE + b.size) rest

/-! ## Heap lemmas -/

theorem validate_block_iff (b : block_header) :
    validate_block b = true ↔ b.magic = BLOCK_MAGIC ∧ b.size ≠ 0 := by
  rw [validate_block]
  by_cases h1 : b.magic = BLOCK_MAGIC <;> by_cases h2 : b.size = 0 <;>
    simp [h1, h2]

theorem blocks_chained_lower (l : List (Nat × block_header)) :
    ∀ a0, blocks_chained a0 l = true → ∀ ab ∈ l, a0 ≤ ab.1 := by
  induction l with
  | nil => intro a0 _ ab hab; cases hab
  | cons hd t ih =>
      obtain ⟨a, c⟩ := hd
      intro a0 hc ab hab
      rw [blocks_chained, Bool.and_eq_true, beq_iff_eq] at hc
      obtain ⟨ha, hct⟩ := hc
      rw [List.mem_cons] at hab
      rcases hab with hab | hab
      · rw [hab]
        omega
      · have := ih (a + HEADER_SIZE + c.size) hct ab hab
        omega

theorem kmalloc_list_spec (l : List (Nat × block_header)) :
    ∀ (a0 size1 addr : Nat) (b : block_header),
      blocks_chained a0 l = true →
      find_free_block size1 l = some (addr, b) →
      a0 ≤ addr ∧
      blocks_chained a0
        (set_block_flags addr BLOCK_USED (split_block_list addr size1 l).1) = true ∧
      ∃ s' f0,
        ((split_block_list addr size1 l).1).lookup addr =
          some ⟨s', f0, BLOCK_MAGIC⟩ ∧
        (set_block_flags addr BLOCK_USED
            (split_block_list addr size1 l).1).lookup addr =
          some ⟨s', BLOCK_USED, BLOCK_MAGIC⟩ ∧
        size1 ≤ s' ∧
        ∀ ab ∈ set_block_flags addr BLOCK_USED (split_block_list addr size1 l).1,
          ab.1 ≠ addr →
            addr + HEADER_SIZE + s' ≤ ab.1 ∨
              ab.1 + HEADER_SIZE + ab.2.size ≤ addr := by
  induction l with
  | nil => intro a0 size1 addr b _ hf; cases hf
  | cons hd t ih =>
      obtain ⟨a, c⟩ := hd
      intro a0 size1 addr b hc hf
      rw [blocks_chained, Bool.and_eq_true, beq_iff_eq] at hc
      obtain ⟨ha, hct⟩ := hc
      rw [find_free_block] at hf
      by_cases hv : validate_block c = true
      · rw [if_neg (by simp [hv])] at hf
        have hmagic : c.magic = BLOCK_MAGIC := ((validate_block_iff c).mp hv).1
        have hsz : c.size ≠ 0 := ((validate_block_iff c).mp hv).2
        by_cases hsel : c.flags % 2 = 0 ∧ size1 ≤ c.size
        · rw [if_pos hsel] at hf
          have hab : (a, c) = (addr, b) := by
            injection hf
          injection hab with hab1 hab2
          subst hab1
          by_cases hsp : c.size < size1 + HEADER_SIZE + HEAP_MIN_BLOCK
          · -- block too small to split: marked used in place
            rw [show split_block_list a size1 ((a, c) :: t) =
                ((a, c) :: t, false) from by
              rw [split_block_list, if_pos rfl, if_pos hsp]]
            rw [show set_block_flags a BLOCK_USED ((a, c) :: t) =
                (a, { c with flags := BLOCK_USED }) :: t from by
              rw [set_block_flags, if_pos rfl]]
            refine ⟨by omega, ?_, c.size, c.flags, ?_, ?_, hsel.2, ?_⟩
            · rw [blocks_chained, Bool.and_eq_true, beq_iff_eq]
              exact ⟨ha, hct⟩
            · show List.lookup a ((a, c) :: t) = some ⟨c.size, c.flags, BLOCK_MAGIC⟩
              rw [List.lookup]
              simp only [beq_self_eq_true]
              cases c
              simp_all
            · show List.lookup a ((a, { c with flags := BLOCK_USED }) :: t) =
                some ⟨c.size, BLOCK_USED, BLOCK_MAGIC⟩
              rw [List.lookup]
              simp only [beq_self_eq_true]
              cases c
              simp_all
            · intro ab hab hne
              rw [List.mem_cons] at hab
              rcases hab with hab | hab
              · rw [hab] at hne
                simp at hne
              · have := blocks_chained_lower t _ hct ab hab
                omega
          · -- split: shrink to size1 and insert the remainder block
            rw [show split_block_list a size1 ((a, c) :: t) =
                ((a, { c with size := size1 }) ::
                  (a + HEADER_SIZE + size1,
                    { size := c.size - size1 - HEADER_SIZE, flags := BLOCK_FREE,
                      magic := BLOCK_MAGIC }) :: t, true) from by
              rw [split_block_list, if_pos rfl, if_neg hsp]]
            rw [show set_block_flags a BLOCK_USED
                ((a, { c with size := size1 }) ::
                  (a + HEADER_SIZE + size1,
                    { size := c.size - size1 - HEADER_SIZE, flags := BLOCK_FREE,
                      magic := BLOCK_MAGIC }) :: t) =
                ((a, { c with size := size1, flags := BLOCK_USED }) ::
                  (a + HEADER_SIZE + size1,
                    { size := c.size - size1 - HEADER_SIZE, flags := BLOCK_FREE,
                      magic := BLOCK_MAGIC }) :: t) from by
              rw [set_block_flags, if_pos rfl]]
            refine ⟨by omega, ?_, size1, c.flags, ?_, ?_, Nat.le_refl size1, ?_⟩
            · rw [blocks_chained, Bool.and_eq_true, beq_iff_eq]
              refine ⟨ha, ?_⟩
              rw [blocks_chained, Bool.and_eq_true, beq_iff_eq]
              refine ⟨rfl, ?_⟩
              rw [show a + HEADER_SIZE + size1 + HEADER_SIZE +
                  (c.size - size1 - HEADER_SIZE) = a + HEADER_SIZE + c.size from by
                rw [HEADER_SIZE] at hsp ⊢
                rw [HEAP_MIN_BLOCK] at hsp
                omega]
              exact hct
            · rw [List.lookup]
              simp only [beq_self_eq_true]
              cases c
              simp_all
            · rw [List.lookup]
              simp only [beq_self_eq_true]
              cases c
              simp_all
            · intro ab hab hne
              rw [List.mem_cons, List.mem_cons] at hab
              rcases hab with hab | hab | hab
              · rw [hab] at hne
                simp at hne
              · left
                rw [hab]
              · have := blocks_chained_lower t _ hct ab hab
                left
                omega
        · rw [if_neg hsel] at hf
          have hrec := ih (a + HEADER_SIZE + c.size) size1 addr b hct hf
          obtain ⟨hle, hch, s', f0, hl1, hl2, hs, hdis⟩ := hrec
          have hane : a ≠ addr := by omega
          rw [show split_block_list addr size1 ((a, c) :: t) =
              ((a, c) :: (split_block_list addr size1 t).1,
                (split_block_list addr size1 t).2) from by
            rw [split_block_list, if_neg hane]]
          rw [show set_block_flags addr BLOCK_USED
              ((a, c) :: (split_block_list addr size1 t).1) =
              (a, c) :: set_block_flags addr BLOCK_USED
                (split_block_list addr size1 t).1 from by
            rw [set_block_flags, if_neg hane]]
          have hbeq : (addr == a) = false := by
            rw [beq_eq_false_iff_ne]
            omega
          refine ⟨by omega, ?_, s', f0, ?_, ?_, hs, ?_⟩
          · rw [blocks_chained, Bool.and_eq_true, beq_iff_eq]
            exact ⟨ha, hch⟩
          · rw [List.lookup, hbeq]
            exact hl1
          · rw [List.lookup, hbeq]
            exact hl2
          · intro ab hab hne
            rw [List.mem_cons] at hab
            rcases hab with hab | hab
            · right
              rw [hab]
              dsimp only
              omega
            · exact hdis ab hab hne
      · rw [if_pos (by simp [hv])] at hf
        cases hf

theorem le_align_up8 (n : Nat) : n ≤ align_up n 8 := by
  rw [align_up]
  omega

/-- C3 as amended: for every n > 0, while the heap has room (first-fit
finds a free block for the rounded size), `kmalloc(n)` returns a non-null
payload pointer `addr + HEADER_SIZE` of a used, magic-intact block of at
least n bytes, and the payload is disjoint from the header and payload
span of every other block in the heap.  The claimed 8-byte alignment of
the payload does not hold (see the counterexample): the packed header is
36 bytes, so the payload sits at header address + 36 ≡ 4 (mod 8) for the
first block. -/
theorem kmalloc_spec (st : HeapState) (n addr0 : Nat) (b0 : block_header)
    (hinit : st.initialized = true)
    (hchain : blocks_chained st.heap_start st.blocks = true)
    (hn : 0 < n)
    (hroom : find_free_block (align_up n 8) st.blocks = some (addr0, b0)) :
    (kmalloc st n).1 = some (addr0 + HEADER_SIZE) ∧
    st.heap_start ≤ addr0 ∧
    addr0 + HEADER_SIZE ≠ 0 ∧
    ∃ s', ((kmalloc st n).2).blocks.lookup addr0 =
        some ⟨s', BLOCK_USED, BLOCK_MAGIC⟩ ∧
      n ≤ s' ∧
      ∀ ab ∈ ((kmalloc st n).2).blocks, ab.1 ≠ addr0 →
        (addr0 + HEADER_SIZE) + s' ≤ ab.1 ∨
          ab.1 + HEADER_SIZE + ab.2.size ≤ addr0 := by
  obtain ⟨hle, hch, s', f0, hl1, hl2, hs, hdis⟩ :=
    kmalloc_list_spec st.blocks st.heap_start (align_up n 8) addr0 b0 hchain hroom
  have hkm : kmalloc st n = kmalloc_finish st addr0 (align_up n 8) := by
    rw [kmalloc, hinit]
    simp only [Bool.true_eq_false, if_false]
    rw [if_neg (by omega : ¬n = 0), hroom]
  rw [hkm, kmalloc_finish]
  simp only [split_block]
  rw [hl1]
  refine ⟨rfl, hle, by rw [HEADER_SIZE]; omega, s', ?_, ?_, ?_⟩
  · exact hl2
  · exact Nat.le_trans (le_align_up8 n) hs
  · intro ab hab hne
    have : (addr0 + HEADER_SIZE) + s' = addr0 + HEADER_SIZE + s' := rfl
    rw [this]
    exact hdis ab hab hne

/-- Witness for the amended C3: in the freshly initialized 16 KiB heap,
`kmalloc(32)` returns payload 0x200024 for the block at 0x200000, of size
at least 32, disjoint from the remainder block. -/
theorem kmalloc_spec_witness :
    (kmalloc kheap_init 32).1 = some (0x200000 + HEADER_SIZE) ∧
    kheap_init.heap_start ≤ 0x200000 ∧
    0x200000 + HEADER_SIZE ≠ 0 ∧
    ∃ s', ((kmalloc kheap_init 32).2).blocks.lookup 0x200000 =
        some ⟨s', BLOCK_USED, BLOCK_MAGIC⟩ ∧
      32 ≤ s' ∧
      ∀ ab ∈ ((kmalloc kheap_init 32).2).blocks, ab.1 ≠ 0x200000 →
        (0x200000 + HEADER_SIZE) + s' ≤ ab.1 ∨
          ab.1 + HEADER_SIZE + ab.2.size ≤ 0x200000 :=
  kmalloc_spec kheap_init 32 0x200000 ⟨16348, 0, 0xDEADBEEF⟩
    (by decide) (by decide) (by decide) (by decide)

/-- C3, counterexample: the very first allocation of the freshly
initialized heap returns payload address 0x200024 = 0x200000 + 36, and
0x200024 mod 8 = 4, so the returned pointer is not 8-byte aligned (the
claim's alignment conjunct fails). -/
theorem kmalloc_payload_not_8_byte_aligned :
    (kmalloc kheap_init 32).1 = some 0x200024 ∧ (0x200024 : Nat) % 8 = 4 := by
  constructor <;> decide

/-- C9: `kfree` on a payload pointer whose block has an intact magic, a
non-zero size and a clear used-bit (an already freed block) detects the
double free (kheap.c:356-359) and returns with the heap state — blocks
and statistics — entirely unchanged. -/
theorem kfree_double_free_noop (st : HeapState) (p : Nat) (b : block_header)
    (hb : st.blocks.lookup (p - HEADER_SIZE) = some b)
    (hmagic : b.magic = BLOCK_MAGIC) (hsize : b.size ≠ 0)
    (hfree : b.flags % 2 = 0) :
    kfree st p = st := by
  rw [kfree]
  by_cases hp : p = 0
  · rw [if_pos hp]
  · rw [if_neg hp]
    by_cases hi : st.initialized = false
    · rw [if_pos hi]
    · rw [if_neg hi, hb]
      have hv : validate_block b = true := (validate_block_iff b).mpr ⟨hmagic, hsize⟩
      simp only [hv, Bool.not_true, Bool.false_eq_true, if_false]
      rw [if_pos hfree]

/-- A heap holding one block that has already been freed once: used-bit
clear, magic intact. -/
def kheap_c9_state : HeapState :=
  { heap_start := 0x200000, heap_end := 0x200000 + HEADER_SIZE + 100,
    heap_size := HEADER_SIZE + 100,
    blocks := [(0x200000, ⟨100, BLOCK_FREE, BLOCK_MAGIC⟩)],
    initialized := true,
    stats := ⟨HEADER_SIZE + 100, 0, 100, 1, 1, 0, 1, 1⟩ }

/-- Witness for C9: a second `kfree` of the single already-freed block
leaves the state untouched. -/
theorem kfree_double_free_noop_witness :
    kfree kheap_c9_state (0x200000 + HEADER_SIZE) = kheap_c9_state :=
  kfree_double_free_noop kheap_c9_state (0x200000 + HEADER_SIZE)
    ⟨100, BLOCK_FREE, BLOCK_MAGIC⟩ (by decide) (by decide) (by decide) (by decide)

/-! # Virtual Memory Manager (src/kernel/vmm.c)

The machine is physical memory (a map from 8-byte-aligned physical
addresses to 64-bit words — the kernel runs identity-mapped, so the C
pointers into page tables are the physical addresses themselves), the PMM
state feeding `pmm_alloc_frame`, and the VMM globals.  Bit-level mask
operations on 64-bit words are written as explicit `% 2^w` arithmetic:
`x & PTE_ADDR_MASK` (bits 12..51) is `x % 2^52 - x % 2^12`,
`x & PTE_FLAGS_MASK` (bits 0..11 and 52..63) is
`x % 2^12 + (x / 2^52 % 2^12) * 2^52`, `x & 1` is `x % 2`,
`x | 1` is `x / 2 * 2 + 1`, `(x >> k) & 0x1FF` is `x / 2^k % 512`, and
`ALIGN_DOWN(x, 4096)` on a `uint64_t` is `x % 2^64 - x % 2^12`.
-/

def PTE_PRESENT : Nat := 1
def PTE_WRITE : Nat := 2
def PTE_HUGE : Nat := 0x80
def PTE_KERNEL_FLAGS : Nat := PTE_PRESENT + PTE_WRITE

/-- `pte & PTE_ADDR_MASK` (vmm.c:55-57), mask 0x000FFFFFFFFFF000. -/
def pte_get_addr (pte : Nat) : Nat := pte % 2 ^ 52 - pte % 2 ^ 12

/-- `flags & PTE_FLAGS_MASK`, mask 0xFFF0000000000FFF. -/
def pte_flags_mask (flags : Nat) : Nat :=
  flags % 2 ^ 12 + (flags / 2 ^ 52 % 2 ^ 12) * 2 ^ 52

/-- `pte_create` (vmm.c:60-62): the two masks cover disjoint bit ranges,
so the OR of the masked operands is their sum. -/
def pte_create (phys flags : Nat) : Nat :=
  (phys % 2 ^ 52 - phys % 2 ^ 12) + pte_flags_mask flags

theorem pte_create_addr_sanity : pte_create 0x181000 3 = 0x181003 := by decide

theorem pte_create_huge_sanity :
    pte_create 0 (PTE_PRESENT + PTE_WRITE + PTE_HUGE) = 0x83 := by decide

/-- `flags | PTE_PRESENT` (vmm.c:274, 277). -/
def lor_present (flags : Nat) : Nat := flags / 2 * 2 + 1

/-- The index fields of `vmm_parse_address` (vmm.c:67-78). -/
def pml4_index (v : Nat) : Nat := v / 2 ^ 39 % 512
def pdpt_index (v : Nat) : Nat := v / 2 ^ 30 % 512
def pd_index (v : Nat) : Nat := v / 2 ^ 21 % 512
def pt_index (v : Nat) : Nat := v / 2 ^ 12 % 512

/-- `ALIGN_DOWN(addr, PAGE_SIZE)` on a `uint64_t` (vmm.c:47). -/
def ALIGN_DOWN_PAGE (a : Nat) : Nat := a % 2 ^ 64 - a % 2 ^ 12

def mem_write (mem : Nat → Nat) (addr val : Nat) : Nat → Nat :=
  fun x => if x = addr then val else mem x

structure VMMachine where
  mem : Nat → Nat
  pmm : PMMState
  kernel_pml4 : Nat
  vmm_initialized : Bool
  mapped_pages : Nat
  page_tables_allocated : Nat

/-- One level of `vmm_get_pte`'s walk: the identical present-check /
allocate pattern repeated at the PML4 (vmm.c:140-167), PDPT
(vmm.c:170-198) and PD (vmm.c:202-245) levels.  A newly allocated table
is deliberately NOT zeroed (the source disabled the zeroing loops), and
the huge-page bit of a present entry is never consulted — the entry's
address field is always treated as the next table's base. -/
def vmm_walk_level (m : VMMachine) (entry_addr : Nat) (create : Bool) :
    Option Nat × VMMachine :=
  if m.mem entry_addr % 2 = 1 then (some (pte_get_addr (m.mem entry_addr)), m)
  else if create = false then (none, m)
  else
    let al := pmm_alloc_frame m.pmm
    if al.1 = 0 then (none, { m with pmm := al.2 })
    else
      (some al.1,
        { m with
            pmm := al.2,
            mem := mem_write m.mem entry_addr (pte_create al.1 PTE_KERNEL_FLAGS),
            page_tables_allocated := m.page_tables_allocated + 1 })

/-- `vmm_get_pte` (vmm.c:130-250): walk PML4 → PDPT → PD and return the
address of the final PT entry. -/
def vmm_get_pte (m : VMMachine) (virt_addr : Nat) (create : Bool) :
    Option Nat × VMMachine :=
  if m.vmm_initialized = false then (none, m)
  else
    let a1 := m.kernel_pml4 + 8 * pml4_index virt_addr
    match vmm_walk_level m a1 create with
    | (none, m1) => (none, m1)
    | (some pdpt, m1) =>
        let a2 := pdpt + 8 * pdpt_index virt_addr
        match vmm_walk_level m1 a2 create with
        | (none, m2) => (none, m2)
        | (some pd, m2) =>
            let a3 := pd + 8 * pd_index virt_addr
            match vmm_walk_level m2 a3 create with
            | (none, m3) => (none, m3)
            | (some pt, m3) => (some (pt + 8 * pt_index virt_addr), m3)

/-- `vmm_map_page` (vmm.c:260-285); the TLB flush is hardware-only. -/
def vmm_map_page (m : VMMachine) (virt_addr phys_addr flags : Nat) :
    Bool × VMMachine :=
  let virt := ALIGN_DOWN_PAGE virt_addr
  let phys := ALIGN_DOWN_PAGE phys_addr
  match vmm_get_pte m virt true with
  | (none, m1) => (false, m1)
  | (some pte_addr, m1) =>
      if m1.mem pte_addr % 2 = 1 then
        (true, { m1 with
          mem := mem_write m1.mem pte_addr
            (pte_create phys (lor_present flags)) })
      else
        (true, { m1 with
          mem := mem_write m1.mem pte_addr
            (pte_create phys (lor_present flags)),
          mapped_pages := m1.mapped_pages + 1 })

/-- `vmm_unmap_page` (vmm.c:290-303). -/
def vmm_unmap_page (m : VMMachine) (virt_addr : Nat) : Bool × VMMachine :=
  let virt := ALIGN_DOWN_PAGE virt_addr
  match vmm_get_pte m virt false with
  | (none, m1) => (false, m1)
  | (some pte_addr, m1) =>
      if m1.mem pte_addr % 2 = 1 then
        (true, { m1 with
          mem := mem_write m1.mem pte_addr 0,
          mapped_pages := m1.mapped_pages - 1 })
      else (false, m1)

/-- `vmm_get_physical` (vmm.c:308-318). -/
def vmm_get_physical (m : VMMachine) (virt_addr : Nat) : Nat :=
  let offset := virt_addr % 2 ^ 12
  let virt := ALIGN_DOWN_PAGE virt_addr
  match vmm_get_pte m virt false with
  | (none, _) => 0
  | (some pte_addr, m1) =>
      if m1.mem pte_addr % 2 = 1 then pte_get_addr (m1.mem pte_addr) + offset
      else 0

/-- Phase 1 of `vmm_init` (vmm.c:363-426): wire the three static
page-table buffers as PML4[0] → PDPT[0] → PD[0..7] with the PD entries as
2 MiB huge pages, then activate.  The buffers live in the kernel's zeroed
.bss at linker-chosen addresses, passed here as `pml4_phys`, `pdpt_phys`,
`pd_phys`; `mem0` is physical memory before the writes. -/
def vmm_init_phase1 (mem0 : Nat → Nat) (pmm : PMMState)
    (pml4_phys pdpt_phys pd_phys : Nat) : VMMachine :=
  let mem1 := mem_write mem0 (pml4_phys + 8 * 0)
    (pte_create pdpt_phys (PTE_PRESENT + PTE_WRITE))
  let mem2 := mem_write mem1 (pdpt_phys + 8 * 0)
    (pte_create pd_phys (PTE_PRESENT + PTE_WRITE))
  let mem3 := mem_write mem2 (pd_phys + 8 * 0)
    (pte_create (0 * 2 * 1024 * 1024) (PTE_PRESENT + PTE_WRITE + PTE_HUGE))
  let mem4 := mem_write mem3 (pd_phys + 8 * 1)
    (pte_create (1 * 2 * 1024 * 1024) (PTE_PRESENT + PTE_WRITE + PTE_HUGE))
  let mem5 := mem_write mem4 (pd_phys + 8 * 2)
    (pte_create (2 * 2 * 1024 * 1024) (PTE_PRESENT + PTE_WRITE + PTE_HUGE))
  let mem6 := mem_write mem5 (pd_phys + 8 * 3)
    (pte_create (3 * 2 * 1024 * 1024) (PTE_PRESENT + PTE_WRITE + PTE_HUGE))
  let mem7 := mem_write mem6 (pd_phys + 8 * 4)
    (pte_create (4 * 2 * 1024 * 1024) (PTE_PRESENT + PTE_WRITE + PTE_HUGE))
  let mem8 := mem_write mem7 (pd_phys + 8 * 5)
    (pte_create (5 * 2 * 1024 * 1024) (PTE_PRESENT + PTE_WRITE + PTE_HUGE))
  let mem9 := mem_write mem8 (pd_phys + 8 * 6)
    (pte_create (6 * 2 * 1024 * 1024) (PTE_PRESENT + PTE_WRITE + PTE_HUGE))
  let memA := mem_write mem9 (pd_phys + 8 * 7)
    (pte_create (7 * 2 * 1024 * 1024) (PTE_PRESENT + PTE_WRITE + PTE_HUGE))
  { mem := memA, pmm := pmm, kernel_pml4 := pml4_phys,
    vmm_initialized := true, mapped_pages := 0, page_tables_allocated := 3 }

/-- A PMM that has not been initialized; the bootstrap walk never calls
the allocator. -/
def pmm_uninit : PMMState :=
  { bitmap := fun _ => true, total_pages := 0, free_pages := 0,
    used_pages := 0, highest_page := 0, initialized := false }

/-- C2 (code bug): after the 16 MiB huge-page bootstrap of `vmm_init`
(static tables here at 0x180000 / 0x181000 / 0x182000 in the zeroed .bss,
low physical memory zero), `vmm_get_physical(0x1000)` returns 0 and
`vmm_get_physical(0xFFF000)` returns 0 — not 0x1000 and 0xFFF000 as the
spec's identity-map scenario requires.  `vmm_get_pte` never tests
`PTE_HUGE`: it takes the huge PD entry's 2 MiB frame base as a page-table
base and reads the "PTE" from inside the mapped frame itself. -/
theorem vmm_bootstrap_identity_lookup_broken :
    vmm_get_physical
        (vmm_init_phase1 (fun _ => 0) pmm_uninit 0x180000 0x181000 0x182000)
        0x1000 = 0 ∧
      vmm_get_physical
        (vmm_init_phase1 (fun _ => 0) pmm_uninit 0x180000 0x181000 0x182000)
        0x1000 ≠ 0x1000 ∧
      vmm_get_physical
        (vmm_init_phase1 (fun _ => 0) pmm_uninit 0x180000 0x181000 0x182000)
        0xFFF000 = 0 ∧
      vmm_get_physical
        (vmm_init_phase1 (fun _ => 0) pmm_uninit 0x180000 0x181000 0x182000)
        0xFFF000 ≠ 0xFFF000 := by
  refine ⟨?_, ?_, ?_, ?_⟩ <;> decide

/-! ## Established-walk lemmas (claim C7)

Spec-side helpers (not source): the four entry addresses `vmm_get_pte`
reads for `v` when every level is already present, and the predicate that
the walk is established. -/

def walk_a1 (m : VMMachine) (v : Nat) : Nat :=
  m.kernel_pml4 + 8 * pml4_index v

def walk_a2 (m : VMMachine) (v : Nat) : Nat :=
  pte_get_addr (m.mem (walk_a1 m v)) + 8 * pdpt_index v

def walk_a3 (m : VMMachine) (v : Nat) : Nat :=
  pte_get_addr (m.mem (walk_a2 m v)) + 8 * pd_index v

def walk_leaf (m : VMMachine) (v : Nat) : Nat :=
  pte_get_addr (m.mem (walk_a3 m v)) + 8 * pt_index v

def walk_established (m : VMMachine) (v : Nat) : Prop :=
  m.mem (walk_a1 m v) % 2 = 1 ∧ m.mem (walk_a2 m v) % 2 = 1 ∧
    m.mem (walk_a3 m v) % 2 = 1

instance (m : VMMachine) (v : Nat) : Decidable (walk_established m v) := by
  rw [walk_established]
  infer_instance

theorem vmm_get_pte_established (m : VMMachine) (v : Nat) (create : Bool)
    (hinit : m.vmm_initialized = true) (hw : walk_established m v) :
    vmm_get_pte m v create = (some (walk_leaf m v), m) := by
  obtain ⟨h1, h2, h3⟩ := hw
  have hw1 : vmm_walk_level m (walk_a1 m v) create =
      (some (pte_get_addr (m.mem (walk_a1 m v))), m) := by
    rw [vmm_walk_level, if_pos h1]
  have hw2 : vmm_walk_level m (walk_a2 m v) create =
      (some (pte_get_addr (m.mem (walk_a2 m v))), m) := by
    rw [vmm_walk_level, if_pos h2]
  have hw3 : vmm_walk_level m (walk_a3 m v) create =
      (some (pte_get_addr (m.mem (walk_a3 m v))), m) := by
    rw [vmm_walk_level, if_pos h3]
  rw [walk_a1] at hw1
  rw [walk_a2, walk_a1] at hw2
  rw [walk_a3, walk_a2, walk_a1] at hw3
  rw [vmm_get_pte, hinit]
  simp only [Bool.true_eq_false, if_false]
  rw [hw1]
  dsimp only
  rw [hw2]
  dsimp only
  rw [hw3]
  rw [walk_leaf, walk_a3, walk_a2, walk_a1]

theorem walk_after_leaf_write (m m2 : VMMachine) (v val : Nat)
    (hk : m2.kernel_pml4 = m.kernel_pml4)
    (hm : m2.mem = mem_write m.mem (walk_leaf m v) val)
    (hne1 : walk_leaf m v ≠ walk_a1 m v)
    (hne2 : walk_leaf m v ≠ walk_a2 m v)
    (hne3 : walk_leaf m v ≠ walk_a3 m v)
    (hw : walk_established m v) :
    walk_a1 m2 v = walk_a1 m v ∧ walk_a2 m2 v = walk_a2 m v ∧
      walk_a3 m2 v = walk_a3 m v ∧ walk_leaf m2 v = walk_leaf m v ∧
      walk_established m2 v ∧ m2.mem (walk_leaf m2 v) = val := by
  obtain ⟨h1, h2, h3⟩ := hw
  have e1 : walk_a1 m2 v = walk_a1 m v := by
    rw [walk_a1, walk_a1, hk]
  have q1 : m2.mem (walk_a1 m2 v) = m.mem (walk_a1 m v) := by
    rw [e1, hm, mem_write]
    exact if_neg fun h => hne1 h.symm
  have e2 : walk_a2 m2 v = walk_a2 m v := by
    rw [walk_a2, walk_a2, q1]
  have q2 : m2.mem (walk_a2 m2 v) = m.mem (walk_a2 m v) := by
    rw [e2, hm, mem_write]
    exact if_neg fun h => hne2 h.symm
  have e3 : walk_a3 m2 v = walk_a3 m v := by
    rw [walk_a3, walk_a3, q2]
  have q3 : m2.mem (walk_a3 m2 v) = m.mem (walk_a3 m v) := by
    rw [e3, hm, mem_write]
    exact if_neg fun h => hne3 h.symm
  have eL : walk_leaf m2 v = walk_leaf m v := by
    rw [walk_leaf, walk_leaf, q3]
  refine ⟨e1, e2, e3, eL, ⟨?_, ?_, ?_⟩, ?_⟩
  · rw [q1]; exact h1
  · rw [q2]; exact h2
  · rw [q3]; exact h3
  · rw [eL, hm, mem_write, if_pos rfl]

theorem pte_create_present_bit (p f : Nat) :
    pte_create p (lor_present f) % 2 = 1 := by
  rw [pte_create, pte_flags_mask, lor_present]
  omega

theorem pte_get_addr_create (p f : Nat) (hp : p % 4096 = 0)
    (hp52 : p < 2 ^ 52) :
    pte_get_addr (pte_create p f) = p := by
  rw [pte_get_addr, pte_create, pte_flags_mask]
  omega

theorem align_down_page_self (v : Nat) (hv : v % 4096 = 0)
    (hv64 : v < 2 ^ 64) : ALIGN_DOWN_PAGE v = v := by
  rw [ALIGN_DOWN_PAGE]
  omega

/-- C7 as amended: for a page-aligned virtual address v (canonical 64-bit)
and page-aligned physical address p within the PTE's 52-bit address field,
with the translation path for v already established (all three levels
present) and the leaf PTE slot distinct from the three intermediate
entries read by the walk, `vmm_map_page(v, p, f)` succeeds, an immediately
following `vmm_get_physical(v)` returns p, the subsequent
`vmm_unmap_page(v)` succeeds, and `vmm_get_physical(v)` then returns 0. -/
theorem vmm_map_get_unmap (m : VMMachine) (v p f : Nat)
    (hinit : m.vmm_initialized = true)
    (hv : v % 4096 = 0) (hv64 : v < 2 ^ 64)
    (hp : p % 4096 = 0) (hp52 : p < 2 ^ 52)
    (hw : walk_established m v)
    (hne1 : walk_leaf m v ≠ walk_a1 m v)
    (hne2 : walk_leaf m v ≠ walk_a2 m v)
    (hne3 : walk_leaf m v ≠ walk_a3 m v) :
    (vmm_map_page m v p f).1 = true ∧
    vmm_get_physical (vmm_map_page m v p f).2 v = p ∧
    (vmm_unmap_page (vmm_map_page m v p f).2 v).1 = true ∧
    vmm_get_physical (vmm_unmap_page (vmm_map_page m v p f).2 v).2 v = 0 := by
  have hva : ALIGN_DOWN_PAGE v = v := align_down_page_self v hv hv64
  have hpa : ALIGN_DOWN_PAGE p = p :=
    align_down_page_self p hp (by
      have : (2 : Nat) ^ 52 < 2 ^ 64 := by norm_num
      omega)
  have hpte := vmm_get_pte_established m v true hinit hw
  have hmap : ∃ mp : Nat, vmm_map_page m v p f =
      (true, { m with
        mem := mem_write m.mem (walk_leaf m v)
          (pte_create p (lor_present f)),
        mapped_pages := mp }) := by
    by_cases hpr : m.mem (walk_leaf m v) % 2 = 1
    · refine ⟨m.mapped_pages, ?_⟩
      rw [vmm_map_page, hva, hpa, hpte]
      dsimp only
      rw [if_pos hpr]
    · refine ⟨m.mapped_pages + 1, ?_⟩
      rw [vmm_map_page, hva, hpa, hpte]
      dsimp only
      rw [if_neg hpr]
  obtain ⟨mp, hmap⟩ := hmap
  have hpres := walk_after_leaf_write m (vmm_map_page m v p f).2 v
    (pte_create p (lor_present f)) (by rw [hmap]) (by rw [hmap])
    hne1 hne2 hne3 hw
  obtain ⟨e1, e2, e3, eL, hw2, hval2⟩ := hpres
  have hinit2 : (vmm_map_page m v p f).2.vmm_initialized = true := by
    rw [hmap]
    exact hinit
  have hpte2f := vmm_get_pte_established (vmm_map_page m v p f).2 v false
    hinit2 hw2
  have hpresent2 : (vmm_map_page m v p f).2.mem
      (walk_leaf (vmm_map_page m v p f).2 v) % 2 = 1 := by
    rw [hval2]
    exact pte_create_present_bit p f
  have hget2 : vmm_get_physical (vmm_map_page m v p f).2 v = p := by
    rw [vmm_get_physical, hva, hpte2f]
    dsimp only
    rw [if_pos hpresent2, hval2, pte_get_addr_create p (lor_present f) hp hp52]
    omega
  have hunmap : vmm_unmap_page (vmm_map_page m v p f).2 v =
      (true, { (vmm_map_page m v p f).2 with
        mem := mem_write (vmm_map_page m v p f).2.mem
          (walk_leaf (vmm_map_page m v p f).2 v) 0,
        mapped_pages := (vmm_map_page m v p f).2.mapped_pages - 1 }) := by
    rw [vmm_unmap_page, hva, hpte2f]
    dsimp only
    rw [if_pos hpresent2]
  have hpres3 := walk_after_leaf_write (vmm_map_page m v p f).2
    (vmm_unmap_page (vmm_map_page m v p f).2 v).2 v 0
    (by rw [hunmap]) (by rw [hunmap])
    (by rw [eL, e1]; exact hne1)
    (by rw [eL, e2]; exact hne2)
    (by rw [eL, e3]; exact hne3)
    hw2
  obtain ⟨f1, f2, f3, fL, hw3, hval3⟩ := hpres3
  have hinit3 : (vmm_unmap_page (vmm_map_page m v p f).2 v).2.vmm_initialized =
      true := by
    rw [hunmap]
    exact hinit2
  have hpte3 := vmm_get_pte_established
    (vmm_unmap_page (vmm_map_page m v p f).2 v).2 v false hinit3 hw3
  have hget3 : vmm_get_physical
      (vmm_unmap_page (vmm_map_page m v p f).2 v).2 v = 0 := by
    rw [vmm_get_physical, hva, hpte3]
    dsimp only
    rw [hval3]
    norm_num
  refine ⟨by rw [hmap], hget2, by rw [hunmap], hget3⟩

/-- A small machine with an established walk for virtual address 0: PML4
at 0x1000, PDPT at 0x2000, PD at 0x3000, PT at 0x4000, leaf PTE slot
0x4000 (all other memory zero). -/
def vmm_c7_machine : VMMachine :=
  { mem := mem_write (mem_write (mem_write (fun _ => 0)
      0x1000 (pte_create 0x2000 3)) 0x2000 (pte_create 0x3000 3))
      0x3000 (pte_create 0x4000 3),
    pmm := pmm_uninit, kernel_pml4 := 0x1000, vmm_initialized := true,
    mapped_pages := 0, page_tables_allocated := 3 }

/-- C7, counterexample: with an unaligned physical address the claim
fails — `vmm_map_page(0, 0x5001, 0)` succeeds (both addresses are aligned
down, vmm.c:262-263), but the following `vmm_get_physical(0)` returns
0x5000, not the p = 0x5001 that was passed. -/
theorem vmm_map_unaligned_phys_lost :
    (vmm_map_page vmm_c7_machine 0 0x5001 0).1 = true ∧
      vmm_get_physical (vmm_map_page vmm_c7_machine 0 0x5001 0).2 0 = 0x5000 ∧
      vmm_get_physical (vmm_map_page vmm_c7_machine 0 0x5001 0).2 0 ≠ 0x5001 := by
  refine ⟨?_, ?_, ?_⟩ <;> decide

/-- Witness for the amended C7 on `vmm_c7_machine` with v = 0,
p = 0x5000, f = 0. -/
theorem vmm_map_get_unmap_witness :
    (vmm_map_page vmm_c7_machine 0 0x5000 0).1 = true ∧
    vmm_get_physical (vmm_map_page vmm_c7_machine 0 0x5000 0).2 0 = 0x5000 ∧
    (vmm_unmap_page (vmm_map_page vmm_c7_machine 0 0x5000 0).2 0).1 = true ∧
    vmm_get_physical
      (vmm_unmap_page (vmm_map_page vmm_c7_machine 0 0x5000 0).2 0).2 0 = 0 :=
  vmm_map_get_unmap vmm_c7_machine 0 0x5000 0 rfl (by decide) (by decide)
    (by decide) (by decide) (by decide) (by decide) (by decide) (by decide)

/-! # Processes, threads and the scheduler (src/kernel/process.c,
src/kernel/scheduler.c)

TCBs are heap objects identified here by their `tid`; the kernel state
maps a tid to its TCB.  Crucially, `thread_t` has a single `next`/`prev`
pointer pair (process.h:66-67) that is used BOTH for the owning process's
thread list (process.c:187-192) and for the scheduler's ready queue
(scheduler.c:36-46) — the embedding therefore has a single `next`/`prev`
field pair as well.  The process list (`process_list_head`) is a separate
list with its own links inside `process_t` and is embedded as a `List`
ordered from the head.  The saved CPU context carries only `rip` (the
entry point); stack addresses and the remaining registers do not
influence the claims.  `switch_context` is an assembly register swap and
is a no-op on this state.
-/

inductive task_state where
  | NEW
  | READY
  | RUNNING
  | BLOCKED
  | SLEEPING
  | ZOMBIE
  | DEAD
deriving DecidableEq

structure Thread where
  tid : Nat
  state : task_state
  entry : Nat
  priority : Nat
  time_slice : Nat
  total_runtime : Nat
  process : Nat
  next : Option Nat
  prev : Option Nat
deriving DecidableEq

structure Process where
  pid : Nat
  name : String
  main_thread : Option Nat
  thread_list : Option Nat
  thread_count : Nat
  parent : Option Nat
  exit_code : Int
deriving DecidableEq

structure Kernel where
  threads : Nat → Option Thread
  procs : List Process
  next_pid : Nat
  next_tid : Nat
  current_thread : Option Nat
  sched_running : Bool
  sched_initialized : Bool
  ready_queue_head : Option Nat
  ready_queue_tail : Option Nat
  ready_count : Nat
  total_switches : Nat
  total_ticks : Nat

def SCHED_DEFAULT_TIME_SLICE : Nat := 10

def thread_find (k : Kernel) (t : Nat) : Option Thread := k.threads t

def thread_update (k : Kernel) (t : Nat) (f : Thread → Thread) : Kernel :=
  { k with threads := fun x =>
      if x = t then
        match k.threads x with
        | some th => some (f th)
        | none => none
      else k.threads x }

def process_find (k : Kernel) (p : Nat) : Option Process :=
  k.procs.find? fun pr => pr.pid == p

def process_update (k : Kernel) (p : Nat) (f : Process → Process) : Kernel :=
  { k with procs := k.procs.map fun pr => if pr.pid = p then f pr else pr }

/-- `process_get_current` (process.c:35-40). -/
def process_get_current (k : Kernel) : Option Nat :=
  match k.current_thread with
  | none => none
  | some c =>
      match thread_find k c with
      | none => none
      | some th => some th.process

/-- `scheduler_add_thread` (scheduler.c:30-47): append to the queue tail
— rejecting threads whose state is not READY — by overwriting the
thread's shared `next`/`prev` links. -/
def scheduler_add_thread (k : Kernel) (t : Nat) : Kernel :=
  match thread_find k t with
  | none => k
  | some th =>
      if th.state ≠ task_state.READY then k
      else
        let k1 := thread_update k t fun x =>
          { x with next := none, prev := k.ready_queue_tail }
        let k2 :=
          match k.ready_queue_tail with
          | some tl => thread_update k1 tl fun x => { x with next := some t }
          | none => { k1 with ready_queue_head := some t }
        { k2 with
            ready_queue_tail := some t,
            ready_count := k.ready_count + 1 }

/-- `scheduler_remove_thread` (scheduler.c:52-73).  `ready_count--` on a
`uint32_t` wraps at 0; the counter plays no role in the claims and is
modelled with truncated subtraction. -/
def scheduler_remove_thread (k : Kernel) (t : Nat) : Kernel :=
  match thread_find k t with
  | none => k
  | some th =>
      let k1 :=
        match th.prev with
        | some pv => thread_update k pv fun x => { x with next := th.next }
        | none => { k with ready_queue_head := th.next }
      let k2 :=
        match th.next with
        | some nx => thread_update k1 nx fun x => { x with prev := th.prev }
        | none => { k1 with ready_queue_tail := th.prev }
      let k3 := thread_update k2 t fun x => { x with next := none, prev := none }
      { k3 with ready_count := k.ready_count - 1 }

/-- `scheduler_pick_next` (scheduler.c:78-90): pop the queue head. -/
def scheduler_pick_next (k : Kernel) : Option Nat × Kernel :=
  match k.ready_queue_head with
  | none => (none, k)
  | some h => (some h, scheduler_remove_thread k h)

/-- The re-enqueue of the previously running thread at the top of
`scheduler_switch_to` (scheduler.c:103-110). -/
def switch_requeue (k : Kernel) : Kernel :=
  match k.current_thread with
  | none => k
  | some c =>
      match thread_find k c with
      | none => k
      | some cth =>
          if cth.state = task_state.RUNNING then
            scheduler_add_thread
              (thread_update k c fun x => { x with state := task_state.READY }) c
          else k

/-- The tail of `scheduler_switch_to` (scheduler.c:112-126): mark the
chosen thread running and current, reset its slice, count the switch. -/
def switch_finish (k1 : Kernel) (next : Nat) : Kernel :=
  let k2 := thread_update k1 next fun x => { x with state := task_state.RUNNING }
  let k3 := { k2 with current_thread := some next }
  let k4 := thread_update k3 next fun x =>
    { x with time_slice := SCHED_DEFAULT_TIME_SLICE }
  { k4 with total_switches := k4.total_switches + 1 }

/-- `scheduler_switch_to` (scheduler.c:95-129); the trailing
`switch_context` is a register/stack swap with no effect on this state. -/
def scheduler_switch_to (k : Kernel) (next : Nat) : Kernel :=
  if k.current_thread = some next then
    thread_update k next fun x => { x with state := task_state.RUNNING }
  else switch_finish (switch_requeue k) next

/-- `scheduler_schedule` (scheduler.c:134-150). -/
def scheduler_schedule (k : Kernel) : Kernel :=
  if k.sched_running = false ∨ k.sched_initialized = false then k
  else
    match scheduler_pick_next k with
    | (none, k1) => k1
    | (some nx, k1) => scheduler_switch_to k1 nx

/-- The current-thread half of `scheduler_tick` (scheduler.c:160-180),
split on the value of `current_thread`. -/
def scheduler_tick_current (k0 : Kernel) : Option Nat → Kernel
  | none => scheduler_schedule k0
  | some c =>
      match thread_find k0 c with
      | none => k0
      | some cth =>
          let k1 := thread_update k0 c fun x =>
            { x with total_runtime := x.total_runtime + 1 }
          let k2 :=
            if cth.time_slice > 0 then
              thread_update k1 c fun x => { x with time_slice := x.time_slice - 1 }
            else k1
          let slice := if cth.time_slice > 0 then cth.time_slice - 1
            else cth.time_slice
          if slice = 0 then scheduler_schedule k2 else k2

/-- `scheduler_tick` (scheduler.c:155-181). -/
def scheduler_tick (k : Kernel) : Kernel :=
  if k.sched_running = false ∨ k.sched_initialized = false then k
  else
    let k0 := { k with total_ticks := k.total_ticks + 1 }
    scheduler_tick_current k0 k0.current_thread

/-- `scheduler_yield` (scheduler.c:186-197). -/
def scheduler_yield (k : Kernel) : Kernel :=
  if k.sched_running = false then k
  else
    let k1 :=
      match k.current_thread with
      | none => k
      | some c => thread_update k c fun x => { x with time_slice := 0 }
    scheduler_schedule k1

/-- `scheduler_start` (scheduler.c:202-215). -/
def scheduler_start (k : Kernel) : Kernel :=
  if k.sched_initialized = false then k
  else scheduler_schedule { k with sched_running := true }

/-- `scheduler_init` (scheduler.c:309-329). -/
def scheduler_init (k : Kernel) : Kernel :=
  { k with
      sched_running := false, ready_queue_head := none,
      ready_queue_tail := none, ready_count := 0, total_switches := 0,
      total_ticks := 0, sched_initialized := true }

/-- `thread_create` (process.c:135-206): allocate the TCB (the kmalloc of
TCB and stack are modelled as succeeding), link into the process's thread
list — clobbering the old list head's shared `prev` link — then mark
READY and enqueue. -/
def thread_create_aux (k : Kernel) (ppid entry priority : Nat) :
    Option Process → Kernel
  | none => k
  | some proc =>
      let tid := k.next_tid
      let th : Thread :=
        { tid := tid, state := task_state.NEW, entry := entry,
          priority := priority, time_slice := 10, total_runtime := 0,
          process := ppid, next := proc.thread_list, prev := none }
      let k1 := { k with
        threads := fun x => if x = tid then some th else k.threads x,
        next_tid := k.next_tid + 1 }
      let k2 :=
        match proc.thread_list with
        | some oldh => thread_update k1 oldh fun x => { x with prev := some tid }
        | none => k1
      let k3 := process_update k2 ppid fun pr =>
        { pr with thread_list := some tid, thread_count := pr.thread_count + 1 }
      let k4 := thread_update k3 tid fun x => { x with state := task_state.READY }
      scheduler_add_thread k4 tid

def thread_create (k : Kernel) (ppid entry priority : Nat) : Kernel :=
  thread_create_aux k ppid entry priority (process_find k ppid)

/-- `process_create` (process.c:77-130): head-insert the PCB into the
process list and create the main thread when an entry point is given
(the 63-byte bounded name copy is the name itself). -/
def process_create (k : Kernel) (name : String) (entry : Option Nat) : Kernel :=
  let pid := k.next_pid
  let proc : Process :=
    { pid := pid, name := name, main_thread := none, thread_list := none,
      thread_count := 0, parent := process_get_current k, exit_code := 0 }
  let k1 := { k with procs := proc :: k.procs, next_pid := k.next_pid + 1 }
  match entry with
  | none => k1
  | some e =>
      let tid := k1.next_tid
      let k2 := thread_create k1 pid e 128
      process_update k2 pid fun pr => { pr with main_thread := some tid }

/-- `thread_exit` (process.c:267-273): mark the calling thread zombie. -/
def thread_exit (k : Kernel) : Kernel :=
  match k.current_thread with
  | none => k
  | some c => thread_update k c fun x => { x with state := task_state.ZOMBIE }

/-- The thread-list walk of `process_exit` (process.c:284-288): it
follows the shared `next` links, so it walks whatever chain those links
currently form.  `fuel` bounds the walk (the C loop itself has no bound
and simply crashes or loops on a corrupted chain). -/
def process_exit_walk : Kernel → Nat → Option Nat → Kernel
  | k, _, none => k
  | k, 0, some _ => k
  | k, fuel + 1, some t =>
      match thread_find k t with
      | none => k
      | some th =>
          let k1 := thread_update k t fun x => { x with state := task_state.ZOMBIE }
          process_exit_walk k1 fuel th.next

def process_exit_for (k : Kernel) (code : Int) : Option Nat → Kernel
  | none => k
  | some ppid =>
      match process_find k ppid with
      | none => k
      | some proc =>
          let k1 := process_update k ppid fun pr => { pr with exit_code := code }
          process_exit_walk k1 k1.next_tid proc.thread_list

/-- `process_exit` (process.c:278-291). -/
def process_exit (k : Kernel) (code : Int) : Kernel :=
  process_exit_for k code (process_get_current k)

/-- The address of `idle_task` (process.c:405-409), an opaque code
pointer. -/
def idle_task_entry : Nat := 1

/-- `process_init` (process.c:414-440): reset the lists and the ID
counters — to 1, not 0 — and create the idle process. -/
def process_init (k : Kernel) : Kernel :=
  let k1 := { k with
    procs := [], current_thread := none, next_pid := 1, next_tid := 1 }
  process_create k1 "idle" (some idle_task_entry)

/-- The kernel state at boot: the C globals' static initializers
(process.c:14-20, scheduler.c:14-22). -/
def kernel0 : Kernel :=
  { threads := fun _ => none, procs := [], next_pid := 1, next_tid := 1,
    current_thread := none, sched_running := false,
    sched_initialized := false, ready_queue_head := none,
    ready_queue_tail := none, ready_count := 0, total_switches := 0,
    total_ticks := 0 }

/-! ## Claim C4: the idle process's pid -/

/-- C4 (code bug): after `process_init` the process list holds exactly
one process, the idle process — but its pid is 1, not 0: `process_init`
resets `next_pid` to 1 (process.c:420) and `process_create` assigns
`proc->pid = next_pid++` (process.c:86), while the code's own comment
(process.c:423, "Create idle process (PID 0)") and the spec both say
PID 0.  No process ever receives pid 0. -/
theorem process_init_idle_has_pid_one :
    ((process_init (scheduler_init kernel0)).procs.map
        fun pr => (pr.pid, pr.name)) = [(1, "idle")] ∧
      (process_init (scheduler_init kernel0)).next_pid = 2 := by
  constructor <;> decide

/-! ## Claim C5: the ready-queue invariant -/

/-- The ready queue as seen by walking `next` from the head, the way
`scheduler_pick_next`/`scheduler_remove_thread` consume it; the fuel
`k.next_tid` bounds the walk past any corruption-induced cycle. -/
def queue_walk (k : Kernel) : Nat → Option Nat → List Nat
  | _, none => []
  | 0, some _ => []
  | fuel + 1, some t =>
      match thread_find k t with
      | none => []
      | some th => t :: queue_walk k fuel th.next

def queue_list (k : Kernel) : List Nat :=
  queue_walk k k.next_tid k.ready_queue_head

def thread_ready_bit (k : Kernel) (t : Nat) : Bool :=
  match thread_find k t with
  | some th => th.state = task_state.READY
  | none => false

/-- The claim's invariant: no thread appears twice in the ready queue and
every member is READY. -/
def ready_queue_ok (k : Kernel) : Prop :=
  (queue_list k).Nodup ∧ ∀ t ∈ queue_list k, thread_ready_bit k t = true

instance (k : Kernel) : Decidable (ready_queue_ok k) := by
  rw [ready_queue_ok]
  infer_instance

/-- The four-operation trace that breaks the invariant: create a process
with a main thread, add a second thread to the same process, start the
scheduler. -/
def c5_bad_kernel : Kernel :=
  scheduler_start
    (thread_create
      (process_create (scheduler_init kernel0) "A" (some 7)) 1 7 128)

/-- C5, counterexample: after the second `thread_create` in the same
process clobbers the first thread's shared `prev` link
(process.c:189-191), `scheduler_start`'s pick corrupts the queue:
`scheduler_remove_thread` sees the stale `prev` and never advances the
queue head, so the now-RUNNING current thread is still reachable as the
queue head — the ready queue contains a non-READY thread. -/
theorem ready_queue_invariant_violated :
    ¬ ready_queue_ok c5_bad_kernel ∧
      queue_list c5_bad_kernel = [1] ∧
      thread_ready_bit c5_bad_kernel 1 = false ∧
      c5_bad_kernel.current_thread = some 1 := by
  refine ⟨?_, ?_, ?_, ?_⟩ <;> decide

/-! ### The amended C5 invariant

The counterexample above needs a second `thread_create` aimed at an
already-populated process.  The amended claim restricts attention to
kernels driven through the public scheduler API with processes created
by `process_create` (each bringing exactly its own main thread): under
those operations the ready queue stays duplicate-free and all-READY. -/

/-- The operations of the amended C5 claim. -/
inductive KOp where
  | procCreate (name : String) (entry : Nat)
  | tick
  | yield
  | start
  | threadExit
  | procExit (code : Int)
deriving DecidableEq

def kstep (k : Kernel) : KOp → Kernel
  | KOp.procCreate name entry => process_create k name (some entry)
  | KOp.tick => scheduler_tick k
  | KOp.yield => scheduler_yield k
  | KOp.start => scheduler_start k
  | KOp.threadExit => thread_exit k
  | KOp.procExit code => process_exit k code

def krun (ops : List KOp) : Kernel :=
  ops.foldl kstep (scheduler_init kernel0)

/-- The doubly linked ready queue spelled out: `Q` lists the tids from
head to tail, each present in the thread table, the member after `pv`
having `prev = pv` and `next` pointing at the rest, with
`ready_queue_tail` at the last member. -/
def queue_chain (k : Kernel) : Option Nat → List Nat → Prop
  | pv, [] => k.ready_queue_tail = pv
  | pv, t :: rest =>
      ∃ th, thread_find k t = some th ∧ th.prev = pv ∧
        th.next = rest.head? ∧ queue_chain k (some t) rest

/-- Every process on the list has its main thread as its only thread;
pids are in range. -/
def procs_ok (k : Kernel) : Prop :=
  ∀ pr ∈ k.procs, pr.pid < k.next_pid ∧
    ∃ mt, pr.thread_list = some mt ∧
      (∃ th, thread_find k mt = some th ∧ th.process = pr.pid) ∧
      (∀ t th, thread_find k t = some th → th.process = pr.pid → t = mt)

/-- The inductive invariant of the amended C5 claim, with `Q` the
abstract ready queue. -/
structure KQInv (k : Kernel) (Q : List Nat) : Prop where
  head_eq : k.ready_queue_head = Q.head?
  chain : queue_chain k none Q
  nodup : Q.Nodup
  ready : ∀ t ∈ Q, thread_ready_bit k t = true
  notcur : ∀ t ∈ Q, k.current_thread ≠ some t
  cur_next : ∀ c, k.current_thread = some c →
    ∃ th, thread_find k c = some th ∧ th.next = none
  tid_lt : ∀ t th, thread_find k t = some th → t < k.next_tid
  proc_lt : ∀ t th, thread_find k t = some th → th.process < k.next_pid
  procs_inv : procs_ok k
  pid_nodup : (k.procs.map Process.pid).Nodup

def KInv (k : Kernel) : Prop := ∃ Q, KQInv k Q

theorem thread_find_update (k : Kernel) (t t' : Nat) (f : Thread → Thread) :
    thread_find (thread_update k t f) t' =
      if t' = t then Option.map f (thread_find k t) else thread_find k t' := by
  by_cases h : t' = t
  · subst h
    cases hk : k.threads t' <;>
      simp [thread_find, thread_update, hk]
  · simp [thread_find, thread_update, h]

theorem queue_chain_congr (k k' : Kernel)
    (htail : k'.ready_queue_tail = k.ready_queue_tail)
    (Q : List Nat) :
    ∀ pv, queue_chain k pv Q →
      (∀ u ∈ Q, thread_find k' u = thread_find k u) →
      queue_chain k' pv Q := by
  induction Q with
  | nil =>
      intro pv hc _
      exact htail.trans hc
  | cons t rest ih =>
      intro pv hc hf
      obtain ⟨th, h1, h2, h3, h4⟩ := hc
      exact ⟨th, (hf t (List.mem_cons_self t rest)).trans h1, h2, h3,
        ih (some t) h4 fun u hu => hf u (List.mem_cons_of_mem t hu)⟩

theorem queue_chain_find (k : Kernel) (Q : List Nat) :
    ∀ pv, queue_chain k pv Q → ∀ t ∈ Q, ∃ th, thread_find k t = some th := by
  induction Q with
  | nil => intro pv _ t ht; cases ht
  | cons x rest ih =>
      intro pv hc t ht
      obtain ⟨th, h1, _, _, h4⟩ := hc
      rw [List.mem_cons] at ht
      rcases ht with rfl | ht
      · exact ⟨th, h1⟩
      · exact ih (some x) h4 t ht

theorem queue_chain_tail_last (k : Kernel) (Q : List Nat) :
    ∀ pv lst, queue_chain k pv Q → Q.getLast? = some lst →
      k.ready_queue_tail = some lst := by
  induction Q with
  | nil => intro pv lst _ h; cases h
  | cons x rest ih =>
      intro pv lst hc hl
      obtain ⟨th, _, _, _, h4⟩ := hc
      cases rest with
      | nil =>
          have hx : lst = x := by simpa using hl.symm
          subst hx
          exact h4
      | cons y ys =>
          rw [List.getLast?_cons_cons] at hl
          exact ih (some x) lst h4 hl

theorem getLast?_cons_ne_none (x : Nat) (l : List Nat) :
    (x :: l).getLast? ≠ none := by
  induction l generalizing x with
  | nil => simp
  | cons y ys ih => rw [List.getLast?_cons_cons]; exact ih y

theorem queue_walk_of_chain (k : Kernel) (Q : List Nat) :
    ∀ pv fuel, queue_chain k pv Q → Q.length ≤ fuel →
      queue_walk k fuel Q.head? = Q := by
  induction Q with
  | nil => intro pv fuel _ _; cases fuel <;> rfl
  | cons t rest ih =>
      intro pv fuel hc hlen
      obtain ⟨th, h1, _, h3, h4⟩ := hc
      cases fuel with
      | zero => simp at hlen
      | succ f =>
          show queue_walk k (f + 1) (some t) = t :: rest
          rw [queue_walk, h1]
          show t :: queue_walk k f th.next = t :: rest
          rw [h3]
          have hlen' : rest.length ≤ f := by
            simp only [List.length_cons] at hlen
            omega
          rw [ih (some t) f h4 hlen']

theorem nodup_lt_length_le (Q : List Nat) (n : Nat) (hn : Q.Nodup)
    (hlt : ∀ t ∈ Q, t < n) : Q.length ≤ n := by
  have hc : Q.length = Q.toFinset.card := (List.toFinset_card_of_nodup hn).symm
  rw [hc]
  have hsub : Q.toFinset ⊆ Finset.range n := by
    intro x hx
    rw [List.mem_toFinset] at hx
    exact Finset.mem_range.mpr (hlt x hx)
  simpa using Finset.card_le_card hsub

theorem ready_queue_ok_of_inv (k : Kernel) (Q : List Nat) (h : KQInv k Q) :
    ready_queue_ok k := by
  have hlt : ∀ t ∈ Q, t < k.next_tid := by
    intro t ht
    obtain ⟨th, hth⟩ := queue_chain_find k Q none h.chain t ht
    exact h.tid_lt t th hth
  have hwalk : queue_list k = Q := by
    rw [queue_list, h.head_eq]
    exact queue_walk_of_chain k Q none k.next_tid h.chain
      (nodup_lt_length_le Q k.next_tid h.nodup hlt)
  refine ⟨?_, ?_⟩
  · rw [hwalk]; exact h.nodup
  · intro t ht
    rw [hwalk] at ht
    exact h.ready t ht

theorem KInv_boot : KQInv (scheduler_init kernel0) [] := by
  refine ⟨rfl, rfl, List.nodup_nil, ?_, ?_, ?_, ?_, ?_, ?_, ?_⟩
  · intro t ht; cases ht
  · intro t ht; cases ht
  · intro c hc; cases hc
  · intro t th hth; cases hth
  · intro t th hth; cases hth
  · intro pr hpr; cases hpr
  · exact List.nodup_nil

theorem queue_chain_snoc (k k' : Kernel) (t lst : Nat) (tnew : Thread)
    (hk't : thread_find k' t = some tnew)
    (hprev : tnew.prev = some lst) (hnext : tnew.next = none)
    (htail : k'.ready_queue_tail = some t) :
    ∀ (Q : List Nat) (pv : Option Nat),
      queue_chain k pv Q → Q.Nodup → Q.getLast? = some lst →
      (∀ u ∈ Q, u ≠ lst → thread_find k' u = thread_find k u) →
      (∀ thl, thread_find k lst = some thl →
        thread_find k' lst = some { thl with next := some t }) →
      queue_chain k' pv (Q ++ [t]) := by
  intro Q
  induction Q with
  | nil => intro pv _ _ h; cases h
  | cons x rest ih =>
      intro pv hc hnd hl hsame hlast
      obtain ⟨th, h1, h2, h3, h4⟩ := hc
      cases rest with
      | nil =>
          have hx : lst = x := by simpa using hl.symm
          subst hx
          refine ⟨{ th with next := some t }, hlast th h1, h2, by simp, ?_⟩
          refine ⟨tnew, hk't, ?_, ?_, htail⟩
          · rw [hprev]
          · rw [hnext]; rfl
      | cons y ys =>
          rw [List.getLast?_cons_cons] at hl
          have hmem : lst ∈ y :: ys := by
            obtain ⟨hne, he⟩ :=
              List.mem_getLast?_eq_getLast (show lst ∈ (y :: ys).getLast? from hl)
            rw [he]
            exact List.getLast_mem hne
          have hxlst : x ≠ lst := by
            intro he
            subst he
            exact (List.nodup_cons.mp hnd).1 hmem
          refine ⟨th, ?_, h2, ?_, ?_⟩
          · rw [hsame x (List.mem_cons_self x (y :: ys)) hxlst]
            exact h1
          · simpa using h3
          · exact ih (some x) h4 (List.nodup_cons.mp hnd).2 hl
              (fun u hu hne => hsame u (List.mem_cons_of_mem x hu) hne) hlast

theorem KQInv_congr (k k' : Kernel) (Q : List Nat)
    (hth : ∀ u, thread_find k' u = thread_find k u)
    (hhead : k'.ready_queue_head = k.ready_queue_head)
    (htail : k'.ready_queue_tail = k.ready_queue_tail)
    (hcur : k'.current_thread = k.current_thread)
    (htid : k'.next_tid = k.next_tid)
    (hpid : k'.next_pid = k.next_pid)
    (hprocs : k'.procs = k.procs)
    (h : KQInv k Q) : KQInv k' Q := by
  refine ⟨hhead.trans h.head_eq,
    queue_chain_congr k k' htail Q none h.chain (fun u _ => hth u),
    h.nodup, ?_, ?_, ?_, ?_, ?_, ?_, ?_⟩
  · intro u hu
    rw [thread_ready_bit, hth u]
    exact h.ready u hu
  · intro u hu
    rw [hcur]
    exact h.notcur u hu
  · intro c hc
    rw [hcur] at hc
    obtain ⟨th, h1, h2⟩ := h.cur_next c hc
    exact ⟨th, (hth c).trans h1, h2⟩
  · intro u th hth'
    rw [htid]
    exact h.tid_lt u th ((hth u).symm.trans hth')
  · intro u th hth'
    rw [hpid]
    exact h.proc_lt u th ((hth u).symm.trans hth')
  · intro pr hpr
    rw [hprocs] at hpr
    obtain ⟨ha, mt, hb, ⟨mth, hc1, hc2⟩, hd⟩ := h.procs_inv pr hpr
    refine ⟨hpid ▸ ha, mt, hb, ⟨mth, (hth mt).trans hc1, hc2⟩, ?_⟩
    intro u th hu hp
    exact hd u th ((hth u).symm.trans hu) hp
  · rw [hprocs]
    exact h.pid_nodup

theorem KQInv_update_current (k : Kernel) (Q : List Nat) (c : Nat)
    (f : Thread → Thread) (hc : k.current_thread = some c)
    (hnext : ∀ x, (f x).next = x.next)
    (hprocess : ∀ x, (f x).process = x.process)
    (h : KQInv k Q) : KQInv (thread_update k c f) Q := by
  have hcQ : c ∉ Q := fun hmem => h.notcur c hmem hc
  have hfind : ∀ u, u ≠ c →
      thread_find (thread_update k c f) u = thread_find k u := by
    intro u hu
    rw [thread_find_update, if_neg hu]
  refine ⟨h.head_eq, ?_, h.nodup, ?_, ?_, ?_, ?_, ?_, ?_, h.pid_nodup⟩
  · refine queue_chain_congr k (thread_update k c f) rfl Q none h.chain ?_
    intro u hu
    exact hfind u (fun he => hcQ (he ▸ hu))
  · intro u hu
    rw [thread_ready_bit, hfind u (fun he => hcQ (he ▸ hu))]
    exact h.ready u hu
  · intro u hu
    exact h.notcur u hu
  · intro c' hc'
    have hc2 : k.current_thread = some c' := hc'
    have hcc : c = c' := by
      rw [hc] at hc2
      exact Option.some_inj.mp hc2
    subst hcc
    obtain ⟨th, h1, h2⟩ := h.cur_next c hc
    refine ⟨f th, ?_, by rw [hnext, h2]⟩
    rw [thread_find_update, if_pos rfl, h1]
    rfl
  · intro u th hth
    by_cases hu : u = c
    · subst hu
      rw [thread_find_update, if_pos rfl] at hth
      cases hk : thread_find k u with
      | none => rw [hk] at hth; cases hth
      | some th0 => exact h.tid_lt u th0 hk
    · rw [hfind u hu] at hth
      exact h.tid_lt u th hth
  · intro u th hth
    by_cases hu : u = c
    · subst hu
      rw [thread_find_update, if_pos rfl] at hth
      cases hk : thread_find k u with
      | none => rw [hk] at hth; cases hth
      | some th0 =>
          rw [hk] at hth
          have : th = f th0 := by
            simpa using hth.symm
          rw [this, hprocess]
          exact h.proc_lt u th0 hk
    · rw [hfind u hu] at hth
      exact h.proc_lt u th hth
  · intro pr hpr
    obtain ⟨ha, mt, hb, ⟨mth, hc1, hc2⟩, hd⟩ := h.procs_inv pr hpr
    refine ⟨ha, mt, hb, ?_, ?_⟩
    · by_cases hmc : mt = c
      · subst hmc
        refine ⟨f mth, ?_, by rw [hprocess]; exact hc2⟩
        rw [thread_find_update, if_pos rfl, hc1]
        rfl
      · exact ⟨mth, (hfind mt hmc).trans hc1, hc2⟩
    · intro u th hu hp
      by_cases huc : u = c
      · subst huc
        rw [thread_find_update, if_pos rfl] at hu
        cases hk : thread_find k u with
        | none => rw [hk] at hu; cases hu
        | some th0 =>
            rw [hk] at hu
            have he : th = f th0 := by simpa using hu.symm
            refine hd u th0 hk ?_
            rw [he, hprocess] at hp
            exact hp
      · rw [hfind u huc] at hu
        exact hd u th hu hp

theorem scheduler_add_spec (k : Kernel) (Q : List Nat) (t : Nat) (th : Thread)
    (hhead : k.ready_queue_head = Q.head?)
    (hchain : queue_chain k none Q)
    (hnd : Q.Nodup)
    (hfind : thread_find k t = some th)
    (hready : th.state = task_state.READY)
    (hnot : t ∉ Q) :
    (scheduler_add_thread k t).ready_queue_head = (Q ++ [t]).head? ∧
    queue_chain (scheduler_add_thread k t) none (Q ++ [t]) ∧
    (∀ u thu, thread_find k u = some thu →
      ∃ thu', thread_find (scheduler_add_thread k t) u = some thu' ∧
        thu'.state = thu.state ∧ thu'.process = thu.process) ∧
    (∀ u, thread_find k u = none →
      thread_find (scheduler_add_thread k t) u = none) ∧
    (∀ u, u ≠ t → u ∉ Q →
      thread_find (scheduler_add_thread k t) u = thread_find k u) ∧
    (scheduler_add_thread k t).current_thread = k.current_thread ∧
    (scheduler_add_thread k t).next_tid = k.next_tid ∧
    (scheduler_add_thread k t).next_pid = k.next_pid ∧
    (scheduler_add_thread k t).procs = k.procs := by
  have hne : ¬ (th.state ≠ task_state.READY) := by simp [hready]
  cases htl : k.ready_queue_tail with
  | none =>
      have hQ : Q = [] := by
        cases Q with
        | nil => rfl
        | cons x rest =>
            exfalso
            obtain ⟨lst, hl⟩ : ∃ lst, (x :: rest).getLast? = some lst := by
              cases hgl : (x :: rest).getLast? with
              | none => exact absurd hgl (getLast?_cons_ne_none x rest)
              | some l => exact ⟨l, rfl⟩
            have hth := queue_chain_tail_last k (x :: rest) none lst hchain hl
            rw [htl] at hth
            cases hth
      subst hQ
      have hres : scheduler_add_thread k t =
          { thread_update k t (fun x => { x with next := none, prev := none })
              with
            ready_queue_head := some t,
            ready_queue_tail := some t,
            ready_count := k.ready_count + 1 } := by
        rw [scheduler_add_thread, hfind]
        simp only [hne, if_false, htl]
      have hft : ∀ u, thread_find (scheduler_add_thread k t) u =
          if u = t then some { th with next := none, prev := none }
          else thread_find k u := by
        intro u
        rw [hres]
        show thread_find (thread_update k t
          (fun x => { x with next := none, prev := none })) u = _
        rw [thread_find_update]
        by_cases hu : u = t
        · rw [if_pos hu, if_pos hu, hfind]
          rfl
        · rw [if_neg hu, if_neg hu]
      refine ⟨?_, ?_, ?_, ?_, ?_, ?_, ?_, ?_, ?_⟩
      · rw [hres]; rfl
      · refine ⟨{ th with next := none, prev := none }, ?_, rfl, rfl, ?_⟩
        · rw [hft, if_pos rfl]
        · show (scheduler_add_thread k t).ready_queue_tail = some t
          rw [hres]
      · intro u thu hu
        by_cases hut : u = t
        · subst hut
          rw [hfind] at hu
          refine ⟨{ th with next := none, prev := none }, ?_, ?_, ?_⟩
          · rw [hft, if_pos rfl]
          · cases hu; rfl
          · cases hu; rfl
        · exact ⟨thu, (hft u).trans (by rw [if_neg hut, hu]), rfl, rfl⟩
      · intro u hu
        by_cases hut : u = t
        · subst hut; rw [hfind] at hu; cases hu
        · rw [hft, if_neg hut]; exact hu
      · intro u hu _
        rw [hft, if_neg hu]
      · rw [hres]; rfl
      · rw [hres]; rfl
      · rw [hres]; rfl
      · rw [hres]; rfl
  | some tl =>
      have hQne : Q ≠ [] := by
        intro h
        subst h
        have : k.ready_queue_tail = none := hchain
        rw [htl] at this
        cases this
      have hl : Q.getLast? = some (Q.getLast hQne) :=
        List.getLast?_eq_getLast_of_ne_nil hQne
      have htl' : tl = Q.getLast hQne := by
        have hth := queue_chain_tail_last k Q none (Q.getLast hQne) hchain hl
        rw [htl] at hth
        exact Option.some_inj.mp hth
      have hlstQ : tl ∈ Q := htl' ▸ List.getLast_mem hQne
      have htlt : t ≠ tl := fun he => hnot (he ▸ hlstQ)
      obtain ⟨thl, hthl⟩ := queue_chain_find k Q none hchain tl hlstQ
      have hres : scheduler_add_thread k t =
          { thread_update
              (thread_update k t
                (fun x => { x with next := none, prev := some tl }))
              tl (fun x => { x with next := some t }) with
            ready_queue_tail := some t,
            ready_count := k.ready_count + 1 } := by
        rw [scheduler_add_thread, hfind]
        simp only [hne, if_false, htl]
      have hft : ∀ u, thread_find (scheduler_add_thread k t) u =
          if u = tl then
            Option.map (fun x => { x with next := some t }) (thread_find k tl)
          else if u = t then some { th with next := none, prev := some tl }
          else thread_find k u := by
        intro u
        rw [hres]
        show thread_find (thread_update (thread_update k t
          (fun x => { x with next := none, prev := some tl }))
          tl (fun x => { x with next := some t })) u = _
        have hm : ∀ v, thread_find (thread_update k t
            (fun x => { x with next := none, prev := some tl })) v =
            if v = t then some { th with next := none, prev := some tl }
            else thread_find k v := by
          intro v
          rw [thread_find_update]
          by_cases hv : v = t
          · rw [if_pos hv, if_pos hv, hfind]
            rfl
          · rw [if_neg hv, if_neg hv]
        have hntl : ¬ (tl = t) := fun h => htlt h.symm
        rw [thread_find_update, hm u, hm tl, if_neg hntl]
      refine ⟨?_, ?_, ?_, ?_, ?_, ?_, ?_, ?_, ?_⟩
      · have hh : (scheduler_add_thread k t).ready_queue_head =
            k.ready_queue_head := by
          rw [hres]; rfl
        rw [hh, hhead, List.head?_append_of_ne_nil _ hQne]
      · refine queue_chain_snoc k (scheduler_add_thread k t) t
          tl { th with next := none, prev := some tl } ?_ rfl rfl
          ?_ Q none hchain hnd ?_ ?_ ?_
        · rw [hft, if_neg htlt, if_pos rfl]
        · rw [hres]
        · rw [hl, htl']
        · intro u hu hune
          have hnu : ¬ (u = tl) := hune
          have hnt : ¬ (u = t) := fun he => hnot (he ▸ hu)
          rw [hft, if_neg hnu, if_neg hnt]
        · intro thl' hthl'
          rw [hft, if_pos rfl, hthl']
          rfl
      · intro u thu hu
        by_cases hutl : u = tl
        · subst hutl
          rw [hthl] at hu
          refine ⟨{ thl with next := some t }, ?_, ?_, ?_⟩
          · rw [hft, if_pos rfl, hthl]
            rfl
          · cases hu; rfl
          · cases hu; rfl
        · by_cases hut : u = t
          · subst hut
            rw [hfind] at hu
            refine ⟨{ th with next := none, prev := some tl }, ?_, ?_, ?_⟩
            · rw [hft, if_neg hutl, if_pos rfl]
            · cases hu; rfl
            · cases hu; rfl
          · exact ⟨thu, (hft u).trans
              (by rw [if_neg hutl, if_neg hut]; exact hu), rfl, rfl⟩
      · intro u hu
        by_cases hutl : u = tl
        · subst hutl
          rw [hthl] at hu
          cases hu
        · by_cases hut : u = t
          · subst hut
            rw [hfind] at hu
            cases hu
          · rw [hft, if_neg hutl, if_neg hut]
            exact hu
      · intro u hut huQ
        have hutl : u ≠ tl := fun he => huQ (he ▸ hlstQ)
        rw [hft, if_neg hutl, if_neg hut]
      · rw [hres]; rfl
      · rw [hres]; rfl
      · rw [hres]; rfl
      · rw [hres]; rfl

theorem scheduler_remove_head_spec (k : Kernel) (hd : Nat) (Qt : List Nat)
    (hchain : queue_chain k none (hd :: Qt))
    (hnd : (hd :: Qt).Nodup) :
    (scheduler_remove_thread k hd).ready_queue_head = Qt.head? ∧
    queue_chain (scheduler_remove_thread k hd) none Qt ∧
    (∀ u thu, thread_find k u = some thu →
      ∃ thu', thread_find (scheduler_remove_thread k hd) u = some thu' ∧
        thu'.state = thu.state ∧ thu'.process = thu.process) ∧
    (∀ u, thread_find k u = none →
      thread_find (scheduler_remove_thread k hd) u = none) ∧
    (∀ u, u ≠ hd → u ∉ Qt →
      thread_find (scheduler_remove_thread k hd) u = thread_find k u) ∧
    (∀ thh, thread_find k hd = some thh →
      thread_find (scheduler_remove_thread k hd) hd =
        some { thh with next := none, prev := none }) ∧
    (scheduler_remove_thread k hd).current_thread = k.current_thread ∧
    (scheduler_remove_thread k hd).next_tid = k.next_tid ∧
    (scheduler_remove_thread k hd).next_pid = k.next_pid ∧
    (scheduler_remove_thread k hd).procs = k.procs := by
  obtain ⟨th, h1, h2, h3, h4⟩ := hchain
  have hndQ := List.nodup_cons.mp hnd
  cases Qt with
  | nil =>
      have h3' : th.next = none := h3
      have hres : scheduler_remove_thread k hd =
          { thread_update
              { k with ready_queue_head := none, ready_queue_tail := none }
              hd (fun x => { x with next := none, prev := none }) with
            ready_count := k.ready_count - 1 } := by
        rw [scheduler_remove_thread, h1]
        simp only [h2, h3']
      have hft : ∀ u, thread_find (scheduler_remove_thread k hd) u =
          if u = hd then
            Option.map (fun x => { x with next := none, prev := none })
              (thread_find k hd)
          else thread_find k u := by
        intro u
        rw [hres]
        show thread_find (thread_update
          { k with ready_queue_head := none, ready_queue_tail := none }
          hd (fun x => { x with next := none, prev := none })) u = _
        rw [thread_find_update]
        rfl
      refine ⟨?_, ?_, ?_, ?_, ?_, ?_, ?_, ?_, ?_, ?_⟩
      · rw [hres]; rfl
      · show (scheduler_remove_thread k hd).ready_queue_tail = none
        rw [hres]
        rfl
      · intro u thu hu
        by_cases huh : u = hd
        · subst huh
          rw [h1] at hu
          refine ⟨{ th with next := none, prev := none }, ?_, ?_, ?_⟩
          · rw [hft, if_pos rfl, h1]
            rfl
          · cases hu; rfl
          · cases hu; rfl
        · exact ⟨thu, (hft u).trans (by rw [if_neg huh]; exact hu), rfl, rfl⟩
      · intro u hu
        by_cases huh : u = hd
        · subst huh
          rw [hft, if_pos rfl, hu]
          rfl
        · rw [hft, if_neg huh]
          exact hu
      · intro u huh _
        rw [hft, if_neg huh]
      · intro thh hthh
        rw [hft, if_pos rfl, hthh]
        rfl
      · rw [hres]; rfl
      · rw [hres]; rfl
      · rw [hres]; rfl
      · rw [hres]; rfl
  | cons nx ys =>
      obtain ⟨thn, hn1, hn2, hn3, hn4⟩ := h4
      have h3' : th.next = some nx := h3
      have hdnx : ¬ (hd = nx) :=
        fun he => hndQ.1 (he ▸ List.mem_cons_self nx ys)
      have hnxys : nx ∉ ys := (List.nodup_cons.mp hndQ.2).1
      have hres : scheduler_remove_thread k hd =
          { thread_update
              (thread_update { k with ready_queue_head := some nx } nx
                (fun x => { x with prev := none }))
              hd (fun x => { x with next := none, prev := none }) with
            ready_count := k.ready_count - 1 } := by
        rw [scheduler_remove_thread, h1]
        simp only [h2, h3']
      have hft : ∀ u, thread_find (scheduler_remove_thread k hd) u =
          if u = hd then
            Option.map (fun x => { x with next := none, prev := none })
              (thread_find k hd)
          else if u = nx then
            Option.map (fun x => { x with prev := none }) (thread_find k nx)
          else thread_find k u := by
        intro u
        rw [hres]
        show thread_find (thread_update (thread_update
          { k with ready_queue_head := some nx } nx
          (fun x => { x with prev := none }))
          hd (fun x => { x with next := none, prev := none })) u = _
        have hm : ∀ v, thread_find (thread_update
            { k with ready_queue_head := some nx } nx
            (fun x => { x with prev := none })) v =
            if v = nx then
              Option.map (fun x => { x with prev := none }) (thread_find k nx)
            else thread_find k v := by
          intro v
          rw [thread_find_update]
          rfl
        rw [thread_find_update, hm u, hm hd, if_neg hdnx]
      refine ⟨?_, ?_, ?_, ?_, ?_, ?_, ?_, ?_, ?_, ?_⟩
      · rw [hres]; rfl
      · refine ⟨{ thn with prev := none }, ?_, rfl, ?_, ?_⟩
        · rw [hft, if_neg (fun h => hdnx h.symm), if_pos rfl, hn1]
          rfl
        · exact hn3
        · refine queue_chain_congr k (scheduler_remove_thread k hd) ?_ ys
            (some nx) hn4 ?_
          · rw [hres]; rfl
          · intro u hu
            have hu1 : ¬ (u = hd) := fun he => hndQ.1
              (he ▸ List.mem_cons_of_mem nx hu)
            have hu2 : ¬ (u = nx) := fun he => hnxys (he ▸ hu)
            rw [hft, if_neg hu1, if_neg hu2]
      · intro u thu hu
        by_cases huh : u = hd
        · subst huh
          rw [h1] at hu
          refine ⟨{ th with next := none, prev := none }, ?_, ?_, ?_⟩
          · rw [hft, if_pos rfl, h1]
            rfl
          · cases hu; rfl
          · cases hu; rfl
        · by_cases hun : u = nx
          · subst hun
            rw [hn1] at hu
            refine ⟨{ thn with prev := none }, ?_, ?_, ?_⟩
            · rw [hft, if_neg huh, if_pos rfl, hn1]
              rfl
            · cases hu; rfl
            · cases hu; rfl
          · exact ⟨thu, (hft u).trans
              (by rw [if_neg huh, if_neg hun]; exact hu), rfl, rfl⟩
      · intro u hu
        by_cases huh : u = hd
        · subst huh
          rw [hft, if_pos rfl, hu]
          rfl
        · by_cases hun : u = nx
          · subst hun
            rw [hft, if_neg huh, if_pos rfl, hu]
            rfl
          · rw [hft, if_neg huh, if_neg hun]
            exact hu
      · intro u huh huQ
        have hun : ¬ (u = nx) := fun he => huQ (he ▸ List.mem_cons_self nx ys)
        rw [hft, if_neg huh, if_neg hun]
      · intro thh hthh
        rw [hft, if_pos rfl, hthh]
        rfl
      · rw [hres]; rfl
      · rw [hres]; rfl
      · rw [hres]; rfl
      · rw [hres]; rfl

theorem thread_ready_bit_eq_true (k : Kernel) (t : Nat) :
    thread_ready_bit k t = true ↔
      ∃ th, thread_find k t = some th ∧ th.state = task_state.READY := by
  rw [thread_ready_bit]
  cases h : thread_find k t with
  | none => simp
  | some th => simp [decide_eq_true_eq]

theorem ready_bit_transfer (A B : Kernel) (t : Nat)
    (hpres : ∀ u thu, thread_find A u = some thu →
      ∃ thu', thread_find B u = some thu' ∧
        thu'.state = thu.state ∧ thu'.process = thu.process)
    (h : thread_ready_bit A t = true) : thread_ready_bit B t = true := by
  rw [thread_ready_bit_eq_true] at h ⊢
  obtain ⟨th, hf, hs⟩ := h
  obtain ⟨th', hf', hs', _⟩ := hpres t th hf
  exact ⟨th', hf', hs'.trans hs⟩

theorem core_transfer (A B : Kernel)
    (hpres : ∀ u thu, thread_find A u = some thu →
      ∃ thu', thread_find B u = some thu' ∧
        thu'.state = thu.state ∧ thu'.process = thu.process)
    (hnone : ∀ u, thread_find A u = none → thread_find B u = none)
    (htidB : B.next_tid = A.next_tid)
    (hpidB : B.next_pid = A.next_pid)
    (hprocsB : B.procs = A.procs)
    (htid : ∀ t th, thread_find A t = some th → t < A.next_tid)
    (hproc : ∀ t th, thread_find A t = some th → th.process < A.next_pid)
    (hprocs : procs_ok A)
    (hpidnd : (A.procs.map Process.pid).Nodup) :
    (∀ t th, thread_find B t = some th → t < B.next_tid) ∧
    (∀ t th, thread_find B t = some th → th.process < B.next_pid) ∧
    procs_ok B ∧ (B.procs.map Process.pid).Nodup := by
  have hback : ∀ t th, thread_find B t = some th →
      ∃ th0, thread_find A t = some th0 ∧ th.state = th0.state ∧
        th.process = th0.process := by
    intro t th hB
    cases hA : thread_find A t with
    | none =>
        rw [hnone t hA] at hB
        cases hB
    | some th0 =>
        obtain ⟨th', hB', hs, hp⟩ := hpres t th0 hA
        rw [hB] at hB'
        cases hB'
        exact ⟨th0, rfl, hs, hp⟩
  refine ⟨?_, ?_, ?_, ?_⟩
  · intro t th hB
    obtain ⟨th0, hA, _, _⟩ := hback t th hB
    rw [htidB]
    exact htid t th0 hA
  · intro t th hB
    obtain ⟨th0, hA, _, hp⟩ := hback t th hB
    rw [hpidB, hp]
    exact hproc t th0 hA
  · intro pr hpr
    rw [hprocsB] at hpr
    obtain ⟨hlt, mt, hml, ⟨mth, hmf, hmp⟩, huniq⟩ := hprocs pr hpr
    refine ⟨by rw [hpidB]; exact hlt, mt, hml, ?_, ?_⟩
    · obtain ⟨mth', hB, _, hp⟩ := hpres mt mth hmf
      exact ⟨mth', hB, by rw [hp]; exact hmp⟩
    · intro t th hB hp
      obtain ⟨th0, hA, _, hpe⟩ := hback t th hB
      exact huniq t th0 hA (by rw [← hpe]; exact hp)
  · rw [hprocsB]
    exact hpidnd

theorem switch_finish_inv (k : Kernel) (Q : List Nat) (hd : Nat) (thh : Thread)
    (hhead : k.ready_queue_head = Q.head?)
    (hchain : queue_chain k none Q)
    (hnd : Q.Nodup)
    (hready : ∀ t ∈ Q, thread_ready_bit k t = true)
    (htid : ∀ t th, thread_find k t = some th → t < k.next_tid)
    (hproc : ∀ t th, thread_find k t = some th → th.process < k.next_pid)
    (hprocs : procs_ok k)
    (hpid : (k.procs.map Process.pid).Nodup)
    (hhd_find : thread_find k hd = some thh)
    (hhd_next : thh.next = none)
    (hhd_notQt : hd ∉ Q) :
    KQInv (switch_finish k hd) Q := by
  have hC1 : KQInv { k with current_thread := some hd } Q := by
    refine ⟨hhead, ?_, hnd, hready, ?_, ?_, htid, hproc, hprocs, hpid⟩
    · exact queue_chain_congr k { k with current_thread := some hd } rfl Q
        none hchain (fun u _ => rfl)
    · intro t ht heq
      have he : hd = t := Option.some_inj.mp heq
      exact hhd_notQt (by rw [he]; exact ht)
    · intro c' heq
      have he : hd = c' := Option.some_inj.mp heq
      refine ⟨thh, ?_, hhd_next⟩
      show thread_find k c' = some thh
      rw [← he]
      exact hhd_find
  have h2 := KQInv_update_current { k with current_thread := some hd } Q hd
    (fun x => { x with state := task_state.RUNNING }) rfl
    (fun x => rfl) (fun x => rfl) hC1
  have h3 := KQInv_update_current
    (thread_update { k with current_thread := some hd }
      hd (fun x => { x with state := task_state.RUNNING })) Q hd
    (fun x => { x with time_slice := SCHED_DEFAULT_TIME_SLICE }) rfl
    (fun x => rfl) (fun x => rfl) h2
  exact KQInv_congr
    (thread_update
      (thread_update { k with current_thread := some hd }
        hd (fun x => { x with state := task_state.RUNNING }))
      hd (fun x => { x with time_slice := SCHED_DEFAULT_TIME_SLICE }))
    _ Q (fun u => rfl) rfl rfl rfl rfl rfl rfl h3

theorem switch_requeue_none (k : Kernel) (hcur : k.current_thread = none) :
    switch_requeue k = k := by
  rw [switch_requeue, hcur]

theorem switch_requeue_not_running (k : Kernel) (c : Nat) (cth : Thread)
    (hcur : k.current_thread = some c) (hcf : thread_find k c = some cth)
    (hst : cth.state ≠ task_state.RUNNING) : switch_requeue k = k := by
  rw [switch_requeue, hcur]
  show (match thread_find k c with
    | none => k
    | some cth =>
        if cth.state = task_state.RUNNING then
          scheduler_add_thread
            (thread_update k c fun x => { x with state := task_state.READY }) c
        else k) = k
  rw [hcf]
  show (if cth.state = task_state.RUNNING then
      scheduler_add_thread
        (thread_update k c fun x => { x with state := task_state.READY }) c
    else k) = k
  rw [if_neg hst]

theorem switch_requeue_running (k : Kernel) (c : Nat) (cth : Thread)
    (hcur : k.current_thread = some c) (hcf : thread_find k c = some cth)
    (hst : cth.state = task_state.RUNNING) :
    switch_requeue k = scheduler_add_thread
      (thread_update k c fun x => { x with state := task_state.READY }) c := by
  rw [switch_requeue, hcur]
  show (match thread_find k c with
    | none => k
    | some cth =>
        if cth.state = task_state.RUNNING then
          scheduler_add_thread
            (thread_update k c fun x => { x with state := task_state.READY }) c
        else k) = _
  rw [hcf]
  show (if cth.state = task_state.RUNNING then
      scheduler_add_thread
        (thread_update k c fun x => { x with state := task_state.READY }) c
    else k) = _
  rw [if_pos hst]

theorem scheduler_switch_spec (k : Kernel) (Qt : List Nat) (hd : Nat)
    (thh : Thread)
    (h : KQInv k Qt)
    (hhd_find : thread_find k hd = some thh)
    (hhd_next : thh.next = none)
    (hhd_notQt : hd ∉ Qt)
    (hhd_notcur : k.current_thread ≠ some hd) :
    KInv (scheduler_switch_to k hd) := by
  rw [scheduler_switch_to, if_neg hhd_notcur]
  cases hcur : k.current_thread with
  | none =>
      rw [switch_requeue_none k hcur]
      exact ⟨Qt, switch_finish_inv k Qt hd thh h.head_eq h.chain h.nodup
        h.ready h.tid_lt h.proc_lt h.procs_inv h.pid_nodup
        hhd_find hhd_next hhd_notQt⟩
  | some c =>
      obtain ⟨cth, hcf, hcn⟩ := h.cur_next c hcur
      by_cases hst : cth.state = task_state.RUNNING
      · rw [switch_requeue_running k c cth hcur hcf hst]
        have hka : KQInv (thread_update k c
            (fun x => { x with state := task_state.READY })) Qt :=
          KQInv_update_current k Qt c _ hcur (fun x => rfl) (fun x => rfl) h
        have hkaf : thread_find (thread_update k c
            (fun x => { x with state := task_state.READY })) c =
            some { cth with state := task_state.READY } := by
          rw [thread_find_update, if_pos rfl, hcf]
          rfl
        have hcQt : c ∉ Qt := fun hm => h.notcur c hm hcur
        have hne : hd ≠ c := by
          intro he
          apply hhd_notcur
          rw [hcur, he]
        obtain ⟨ha1, ha2, ha3, ha4, ha5, ha6, ha7, ha8, ha9⟩ :=
          scheduler_add_spec (thread_update k c
              (fun x => { x with state := task_state.READY })) Qt c
            { cth with state := task_state.READY }
            hka.head_eq hka.chain hka.nodup hkaf rfl hcQt
        have hnd' : (Qt ++ [c]).Nodup := by
          rw [List.nodup_append]
          refine ⟨h.nodup, List.nodup_singleton c, ?_⟩
          intro a ha hb
          rw [List.mem_singleton] at hb
          exact hcQt (hb ▸ ha)
        have hready' : ∀ t ∈ Qt ++ [c], thread_ready_bit
            (scheduler_add_thread (thread_update k c
              (fun x => { x with state := task_state.READY })) c) t = true := by
          intro t ht
          refine ready_bit_transfer _ _ t ha3 ?_
          rw [List.mem_append] at ht
          rcases ht with ht | ht
          · exact hka.ready t ht
          · rw [List.mem_singleton] at ht
            subst ht
            rw [thread_ready_bit_eq_true]
            exact ⟨_, hkaf, rfl⟩
        obtain ⟨htid', hproc', hprocs', hpid'⟩ :=
          core_transfer _ _ ha3 ha4 ha7 ha8 ha9
            hka.tid_lt hka.proc_lt hka.procs_inv hka.pid_nodup
        have hfind' : thread_find (scheduler_add_thread (thread_update k c
            (fun x => { x with state := task_state.READY })) c) hd =
            some thh := by
          rw [ha5 hd hne hhd_notQt, thread_find_update, if_neg hne]
          exact hhd_find
        have hnot' : hd ∉ Qt ++ [c] := by
          rw [List.mem_append, List.mem_singleton]
          rintro (hm | hm)
          · exact hhd_notQt hm
          · exact hne hm
        exact ⟨Qt ++ [c], switch_finish_inv
          (scheduler_add_thread (thread_update k c
            (fun x => { x with state := task_state.READY })) c)
          (Qt ++ [c]) hd thh ha1 ha2 hnd' hready' htid' hproc' hprocs' hpid'
          hfind' hhd_next hnot'⟩
      · rw [switch_requeue_not_running k c cth hcur hcf hst]
        exact ⟨Qt, switch_finish_inv k Qt hd thh h.head_eq h.chain h.nodup
          h.ready h.tid_lt h.proc_lt h.procs_inv h.pid_nodup
          hhd_find hhd_next hhd_notQt⟩

theorem scheduler_schedule_inv (k : Kernel) (Q : List Nat) (h : KQInv k Q) :
    KInv (scheduler_schedule k) := by
  rw [scheduler_schedule]
  by_cases hrun : k.sched_running = false ∨ k.sched_initialized = false
  · rw [if_pos hrun]
    exact ⟨Q, h⟩
  · rw [if_neg hrun]
    cases hQ : Q with
    | nil =>
        subst hQ
        have hh : k.ready_queue_head = none := h.head_eq
        rw [scheduler_pick_next, hh]
        exact ⟨[], h⟩
    | cons hd Qt =>
        subst hQ
        have hh : k.ready_queue_head = some hd := h.head_eq
        rw [scheduler_pick_next, hh]
        obtain ⟨hr1, hr2, hr3, hr4, hr5, hr6, hr7, hr8, hr9, hr10⟩ :=
          scheduler_remove_head_spec k hd Qt h.chain h.nodup
        obtain ⟨thH, hH1, hH2, hH3, hH4⟩ := h.chain
        have hndc := List.nodup_cons.mp h.nodup
        have hcur_hd : k.current_thread ≠ some hd :=
          h.notcur hd (List.mem_cons_self hd Qt)
        obtain ⟨htid', hproc', hprocs', hpid'⟩ :=
          core_transfer _ _ hr3 hr4 hr8 hr9 hr10
            h.tid_lt h.proc_lt h.procs_inv h.pid_nodup
        have hready' : ∀ t ∈ Qt, thread_ready_bit
            (scheduler_remove_thread k hd) t = true := by
          intro t ht
          exact ready_bit_transfer _ _ t hr3
            (h.ready t (List.mem_cons_of_mem hd ht))
        have hKrem : KQInv (scheduler_remove_thread k hd) Qt := by
          refine ⟨hr1, hr2, hndc.2, hready', ?_, ?_, htid', hproc',
            hprocs', hpid'⟩
          · intro t ht
            rw [hr7]
            exact h.notcur t (List.mem_cons_of_mem hd ht)
          · intro c hc
            rw [hr7] at hc
            obtain ⟨cth, hcf, hcn⟩ := h.cur_next c hc
            have hch : c ≠ hd := by
              intro he
              rw [he] at hc
              exact hcur_hd hc
            have hcQ : c ∉ Qt := fun hm =>
              h.notcur c (List.mem_cons_of_mem hd hm) hc
            exact ⟨cth, (hr5 c hch hcQ).trans hcf, hcn⟩
        refine scheduler_switch_spec (scheduler_remove_thread k hd) Qt hd
          { thH with next := none, prev := none } hKrem (hr6 thH hH1) rfl
          hndc.1 ?_
        rw [hr7]
        exact hcur_hd

theorem scheduler_start_inv (k : Kernel) (Q : List Nat) (h : KQInv k Q) :
    KInv (scheduler_start k) := by
  rw [scheduler_start]
  by_cases hini : k.sched_initialized = false
  · rw [if_pos hini]
    exact ⟨Q, h⟩
  · rw [if_neg hini]
    exact scheduler_schedule_inv { k with sched_running := true } Q
      (KQInv_congr k _ Q (fun u => rfl) rfl rfl rfl rfl rfl rfl h)

theorem scheduler_yield_inv (k : Kernel) (Q : List Nat) (h : KQInv k Q) :
    KInv (scheduler_yield k) := by
  rw [scheduler_yield]
  by_cases hrun : k.sched_running = false
  · rw [if_pos hrun]
    exact ⟨Q, h⟩
  · rw [if_neg hrun]
    cases hcur : k.current_thread with
    | none => exact scheduler_schedule_inv k Q h
    | some c =>
        exact scheduler_schedule_inv
          (thread_update k c fun x => { x with time_slice := 0 }) Q
          (KQInv_update_current k Q c _ hcur (fun x => rfl) (fun x => rfl) h)

theorem thread_exit_inv (k : Kernel) (Q : List Nat) (h : KQInv k Q) :
    KInv (thread_exit k) := by
  rw [thread_exit]
  cases hcur : k.current_thread with
  | none => exact ⟨Q, h⟩
  | some c =>
      exact ⟨Q, KQInv_update_current k Q c _ hcur
        (fun x => rfl) (fun x => rfl) h⟩

theorem scheduler_tick_inv (k : Kernel) (Q : List Nat) (h : KQInv k Q) :
    KInv (scheduler_tick k) := by
  rw [scheduler_tick]
  by_cases hrun : k.sched_running = false ∨ k.sched_initialized = false
  · rw [if_pos hrun]
    exact ⟨Q, h⟩
  · rw [if_neg hrun]
    show KInv (scheduler_tick_current { k with total_ticks := k.total_ticks + 1 }
      k.current_thread)
    cases hcur : k.current_thread with
    | none =>
        exact scheduler_schedule_inv _ Q
          (KQInv_congr k _ Q (fun u => rfl) rfl rfl hcur.symm rfl rfl rfl h)
    | some c =>
        obtain ⟨cth, hcf, hcn⟩ := h.cur_next c hcur
        have hk0 : KQInv { k with total_ticks := k.total_ticks + 1, current_thread := some c } Q :=
          KQInv_congr k _ Q (fun u => rfl) rfl rfl hcur.symm rfl rfl rfl h
        have hcf0 : thread_find { k with total_ticks := k.total_ticks + 1, current_thread := some c } c = some cth := hcf
        have hk1 : KQInv (thread_update
            { k with total_ticks := k.total_ticks + 1, current_thread := some c } c
            (fun x => { x with total_runtime := x.total_runtime + 1 })) Q :=
          KQInv_update_current _ Q c _ rfl (fun x => rfl) (fun x => rfl) hk0
        have hk2 : KQInv (thread_update (thread_update
            { k with total_ticks := k.total_ticks + 1, current_thread := some c } c
            (fun x => { x with total_runtime := x.total_runtime + 1 })) c
            (fun x => { x with time_slice := x.time_slice - 1 })) Q :=
          KQInv_update_current _ Q c _ rfl (fun x => rfl) (fun x => rfl) hk1
        have hstep : scheduler_tick_current
            { k with total_ticks := k.total_ticks + 1, current_thread := some c } (some c) =
            if (if cth.time_slice > 0 then cth.time_slice - 1
                else cth.time_slice) = 0
            then scheduler_schedule
              (if cth.time_slice > 0 then
                thread_update (thread_update
                  { k with total_ticks := k.total_ticks + 1, current_thread := some c } c
                  (fun x => { x with total_runtime := x.total_runtime + 1 })) c
                  (fun x => { x with time_slice := x.time_slice - 1 })
               else thread_update
                  { k with total_ticks := k.total_ticks + 1, current_thread := some c } c
                  (fun x => { x with total_runtime := x.total_runtime + 1 }))
            else
              (if cth.time_slice > 0 then
                thread_update (thread_update
                  { k with total_ticks := k.total_ticks + 1, current_thread := some c } c
                  (fun x => { x with total_runtime := x.total_runtime + 1 })) c
                  (fun x => { x with time_slice := x.time_slice - 1 })
               else thread_update
                  { k with total_ticks := k.total_ticks + 1, current_thread := some c } c
                  (fun x => { x with total_runtime := x.total_runtime + 1 })) := by
          simp only [scheduler_tick_current]
          rw [hcf0]
        rw [hstep]
        by_cases hts : cth.time_slice > 0
        · rw [if_pos hts, if_pos hts]
          by_cases hsz : cth.time_slice - 1 = 0
          · rw [if_pos hsz]
            exact scheduler_schedule_inv _ Q hk2
          · rw [if_neg hsz]
            exact ⟨Q, hk2⟩
        · rw [if_neg hts, if_neg hts]
          by_cases hsz : cth.time_slice = 0
          · rw [if_pos hsz]
            exact scheduler_schedule_inv _ Q hk1
          · rw [if_neg hsz]
            exact ⟨Q, hk1⟩

theorem process_exit_walk_none (k : Kernel) (fuel : Nat) :
    process_exit_walk k fuel none = k := by
  cases fuel <;> rfl

theorem KQInv_process_update (k : Kernel) (Q : List Nat) (p : Nat)
    (f : Process → Process)
    (hpid : ∀ pr, (f pr).pid = pr.pid)
    (hlist : ∀ pr, (f pr).thread_list = pr.thread_list)
    (h : KQInv k Q) : KQInv (process_update k p f) Q := by
  refine ⟨h.head_eq, ?_, h.nodup, h.ready, h.notcur, h.cur_next, h.tid_lt,
    h.proc_lt, ?_, ?_⟩
  · exact queue_chain_congr k (process_update k p f) rfl Q none h.chain
      (fun u _ => rfl)
  · intro pr' hpr'
    have hpr2 : pr' ∈ k.procs.map
        (fun pr => if pr.pid = p then f pr else pr) := hpr'
    obtain ⟨pr, hpr, hge⟩ := List.mem_map.mp hpr2
    obtain ⟨hlt, mt, hml, ⟨mth, hmf, hmp⟩, huniq⟩ := h.procs_inv pr hpr
    have hpid' : pr'.pid = pr.pid := by
      rw [← hge]
      by_cases hc : pr.pid = p
      · show (if pr.pid = p then f pr else pr).pid = pr.pid
        rw [if_pos hc, hpid]
      · show (if pr.pid = p then f pr else pr).pid = pr.pid
        rw [if_neg hc]
    have hlist' : pr'.thread_list = pr.thread_list := by
      rw [← hge]
      by_cases hc : pr.pid = p
      · show (if pr.pid = p then f pr else pr).thread_list = pr.thread_list
        rw [if_pos hc, hlist]
      · show (if pr.pid = p then f pr else pr).thread_list = pr.thread_list
        rw [if_neg hc]
    refine ⟨by rw [hpid']; exact hlt, mt, by rw [hlist']; exact hml,
      ⟨mth, hmf, by rw [hpid']; exact hmp⟩, ?_⟩
    intro t th ht hp
    exact huniq t th ht (by rw [← hpid']; exact hp)
  · show ((k.procs.map (fun pr => if pr.pid = p then f pr else pr)).map
      Process.pid).Nodup
    rw [List.map_map]
    have hco : (Process.pid ∘ fun pr => if pr.pid = p then f pr else pr) =
        Process.pid := by
      funext pr
      show (if pr.pid = p then f pr else pr).pid = pr.pid
      by_cases hc : pr.pid = p
      · rw [if_pos hc, hpid]
      · rw [if_neg hc]
    rw [hco]
    exact h.pid_nodup

theorem process_exit_inv (k : Kernel) (Q : List Nat) (h : KQInv k Q)
    (code : Int) : KInv (process_exit k code) := by
  rw [process_exit]
  cases hpgc : process_get_current k with
  | none => exact ⟨Q, h⟩
  | some ppid =>
      rw [process_get_current] at hpgc
      cases hcur : k.current_thread with
      | none =>
          rw [hcur] at hpgc
          simp at hpgc
      | some c =>
          rw [hcur] at hpgc
          obtain ⟨cth, hcf, hcn⟩ := h.cur_next c hcur
          have hpgc2 : (match thread_find k c with
              | none => none
              | some th => some th.process) = some ppid := hpgc
          rw [hcf] at hpgc2
          have hpe : cth.process = ppid := Option.some_inj.mp hpgc2
          simp only [process_exit_for]
          cases hpf : process_find k ppid with
          | none => exact ⟨Q, h⟩
          | some proc =>
              have hpf' : k.procs.find? (fun pr => pr.pid == ppid) =
                  some proc := hpf
              have hmem : proc ∈ k.procs := List.mem_of_find?_eq_some hpf'
              have hpp : proc.pid = ppid := by
                have hps := List.find?_some hpf'
                simpa using hps
              obtain ⟨hlt, mt, hml, ⟨mth, hmf, hmp⟩, huniq⟩ :=
                h.procs_inv proc hmem
              have hcmt : c = mt := huniq c cth hcf (by rw [hpe, hpp])
              have hk1 := KQInv_process_update k Q ppid
                (fun pr => { pr with exit_code := code }) (fun pr => rfl)
                (fun pr => rfl) h
              have hclt : c < k.next_tid := h.tid_lt c cth hcf
              obtain ⟨fl, hfl⟩ : ∃ fl, k.next_tid = fl + 1 := by
                cases hnt : k.next_tid with
                | zero => omega
                | succ fl => exact ⟨fl, rfl⟩
              show KInv (process_exit_walk
                (process_update k ppid (fun pr => { pr with exit_code := code }))
                k.next_tid proc.thread_list)
              rw [hml, ← hcmt, hfl]
              simp only [process_exit_walk]
              have hcf1 : thread_find (process_update k ppid
                  (fun pr => { pr with exit_code := code })) c =
                  some cth := hcf
              rw [hcf1]
              show KInv (process_exit_walk
                (thread_update (process_update k ppid
                  (fun pr => { pr with exit_code := code })) c
                  (fun x => { x with state := task_state.ZOMBIE }))
                fl cth.next)
              rw [hcn, process_exit_walk_none]
              exact ⟨Q, KQInv_update_current _ Q c _ hcur
                (fun x => rfl) (fun x => rfl) hk1⟩

/-- The PCB built by `process_create` (process.c:84-96). -/
def pc_proc (k : Kernel) (name : String) : Process :=
  { pid := k.next_pid, name := name, main_thread := none, thread_list := none,
    thread_count := 0, parent := process_get_current k, exit_code := 0 }

/-- The kernel after `process_create` links the new PCB, before
`thread_create` runs. -/
def pc_k1 (k : Kernel) (name : String) : Kernel :=
  { k with procs := pc_proc k name :: k.procs, next_pid := k.next_pid + 1 }

/-- The TCB built by `thread_create` for the main thread. -/
def pc_th (k : Kernel) (entry : Nat) : Thread :=
  { tid := k.next_tid, state := task_state.NEW, entry := entry,
    priority := 128, time_slice := 10, total_runtime := 0,
    process := k.next_pid, next := none, prev := none }

def pc_ka (k : Kernel) (name : String) (entry : Nat) : Kernel :=
  { pc_k1 k name with
      threads := fun x => if x = k.next_tid then some (pc_th k entry)
        else k.threads x,
      next_tid := k.next_tid + 1 }

def pc_k3 (k : Kernel) (name : String) (entry : Nat) : Kernel :=
  process_update (pc_ka k name entry) k.next_pid fun pr =>
    { pr with thread_list := some k.next_tid, thread_count := pr.thread_count + 1 }

def pc_k4 (k : Kernel) (name : String) (entry : Nat) : Kernel :=
  thread_update (pc_k3 k name entry) k.next_tid fun x =>
    { x with state := task_state.READY }

theorem map_id_of_eq (l : List Process) (f : Process → Process)
    (h : ∀ a ∈ l, f a = a) : l.map f = l := by
  induction l with
  | nil => rfl
  | cons a l ih =>
      rw [List.map_cons, h a (List.mem_cons_self a l),
        ih fun b hb => h b (List.mem_cons_of_mem a hb)]

theorem pc_k4_find (k : Kernel) (name : String) (entry : Nat) (u : Nat) :
    thread_find (pc_k4 k name entry) u =
      if u = k.next_tid then
        some { pc_th k entry with state := task_state.READY }
      else thread_find k u := by
  have hka : ∀ v, thread_find (pc_k3 k name entry) v =
      if v = k.next_tid then some (pc_th k entry) else thread_find k v := by
    intro v
    show (if v = k.next_tid then some (pc_th k entry) else k.threads v) = _
    by_cases hv : v = k.next_tid
    · rw [if_pos hv, if_pos hv]
    · rw [if_neg hv, if_neg hv]
      rfl
  rw [pc_k4, thread_find_update, hka u, hka k.next_tid, if_pos rfl]
  by_cases hu : u = k.next_tid
  · rw [if_pos hu, if_pos hu]
    rfl
  · rw [if_neg hu, if_neg hu, if_neg hu]

theorem pc_k4_procs (k : Kernel) (name : String) (entry : Nat)
    (hplt : ∀ pr ∈ k.procs, pr.pid < k.next_pid) :
    (pc_k4 k name entry).procs =
      { pc_proc k name with thread_list := some k.next_tid, thread_count := 1 }
        :: k.procs := by
  show ((pc_proc k name :: k.procs).map fun pr =>
    if pr.pid = k.next_pid then
      { pr with thread_list := some k.next_tid, thread_count := pr.thread_count + 1 }
    else pr) = _
  have hmap : (k.procs.map fun pr =>
      if pr.pid = k.next_pid then
        { pr with thread_list := some k.next_tid, thread_count := pr.thread_count + 1 }
      else pr) = k.procs :=
    map_id_of_eq _ _ (fun pr hpr => if_neg (Nat.ne_of_lt (hplt pr hpr)))
  rw [List.map_cons,
    if_pos (show (pc_proc k name).pid = k.next_pid from rfl), hmap]
  rfl

theorem process_create_inv (k : Kernel) (Q : List Nat) (h : KQInv k Q)
    (name : String) (entry : Nat) :
    KInv (process_create k name (some entry)) := by
  have hplt : ∀ pr ∈ k.procs, pr.pid < k.next_pid :=
    fun pr hpr => (h.procs_inv pr hpr).1
  have hfp : process_find (pc_k1 k name) k.next_pid = some (pc_proc k name) := by
    show ((pc_proc k name :: k.procs).find? fun pr => pr.pid == k.next_pid) =
      some (pc_proc k name)
    exact List.find?_cons_of_pos _ (by simp [pc_proc])
  rw [process_create]
  show KInv (process_update
    (thread_create (pc_k1 k name) k.next_pid entry 128)
    k.next_pid (fun pr => { pr with main_thread := some k.next_tid }))
  rw [thread_create, hfp]
  show KInv (process_update
    (scheduler_add_thread (pc_k4 k name entry) k.next_tid)
    k.next_pid (fun pr => { pr with main_thread := some k.next_tid }))
  have hq_chain : queue_chain (pc_k4 k name entry) none Q := by
    refine queue_chain_congr k (pc_k4 k name entry) rfl Q none h.chain ?_
    intro u hu
    obtain ⟨thu, hthu⟩ := queue_chain_find k Q none h.chain u hu
    rw [pc_k4_find, if_neg (Nat.ne_of_lt (h.tid_lt u thu hthu))]
  have hq_ready : ∀ t ∈ Q, thread_ready_bit (pc_k4 k name entry) t = true := by
    intro t ht
    obtain ⟨tht, htht⟩ := queue_chain_find k Q none h.chain t ht
    have hb : thread_ready_bit (pc_k4 k name entry) t = thread_ready_bit k t := by
      rw [thread_ready_bit, thread_ready_bit, pc_k4_find,
        if_neg (Nat.ne_of_lt (h.tid_lt t tht htht))]
    rw [hb]
    exact h.ready t ht
  have hk4find : thread_find (pc_k4 k name entry) k.next_tid =
      some { pc_th k entry with state := task_state.READY } := by
    rw [pc_k4_find, if_pos rfl]
  have htidQ : k.next_tid ∉ Q := by
    intro hm
    obtain ⟨thu, hthu⟩ := queue_chain_find k Q none h.chain _ hm
    exact Nat.lt_irrefl _ (h.tid_lt _ thu hthu)
  obtain ⟨ha1, ha2, ha3, ha4, ha5, ha6, ha7, ha8, ha9⟩ :=
    scheduler_add_spec (pc_k4 k name entry) Q k.next_tid
      { pc_th k entry with state := task_state.READY }
      h.head_eq hq_chain h.nodup hk4find rfl htidQ
  obtain ⟨nth, hnth, hnths, hnthp⟩ := ha3 k.next_tid _ hk4find
  have hnthp' : nth.process = k.next_pid := hnthp
  have hback : ∀ t th, thread_find
      (scheduler_add_thread (pc_k4 k name entry) k.next_tid) t = some th →
      (t = k.next_tid ∧ th.process = k.next_pid) ∨
      ∃ th0, thread_find k t = some th0 ∧ th.process = th0.process := by
    intro t th hfB
    by_cases ht : t = k.next_tid
    · subst ht
      rw [hnth] at hfB
      cases hfB
      exact Or.inl ⟨rfl, hnthp'⟩
    · cases hfk4 : thread_find (pc_k4 k name entry) t with
      | none =>
          rw [ha4 t hfk4] at hfB
          cases hfB
      | some th0 =>
          obtain ⟨th', hf', hs', hp'⟩ := ha3 t th0 hfk4
          rw [hfB] at hf'
          cases hf'
          rw [pc_k4_find, if_neg ht] at hfk4
          exact Or.inr ⟨th0, hfk4, hp'⟩
  have hADD : KQInv (scheduler_add_thread (pc_k4 k name entry) k.next_tid)
      (Q ++ [k.next_tid]) := by
    refine ⟨ha1, ha2, ?_, ?_, ?_, ?_, ?_, ?_, ?_, ?_⟩
    · rw [List.nodup_append]
      refine ⟨h.nodup, List.nodup_singleton _, ?_⟩
      intro a ha hb
      rw [List.mem_singleton] at hb
      exact htidQ (hb ▸ ha)
    · intro t ht
      rw [List.mem_append] at ht
      rcases ht with ht | ht
      · exact ready_bit_transfer _ _ t ha3 (hq_ready t ht)
      · rw [List.mem_singleton] at ht
        subst ht
        rw [thread_ready_bit_eq_true]
        exact ⟨nth, hnth, hnths⟩
    · intro t ht heq
      rw [ha6] at heq
      have heq' : k.current_thread = some t := heq
      rw [List.mem_append] at ht
      rcases ht with ht | ht
      · exact h.notcur t ht heq'
      · rw [List.mem_singleton] at ht
        subst ht
        obtain ⟨cth, hcf, _⟩ := h.cur_next _ heq'
        exact Nat.lt_irrefl _ (h.tid_lt _ cth hcf)
    · intro c heq
      rw [ha6] at heq
      have heq' : k.current_thread = some c := heq
      obtain ⟨cth, hcf, hcn⟩ := h.cur_next c heq'
      have hcQ : c ∉ Q := fun hm => h.notcur c hm heq'
      have hct : c ≠ k.next_tid := Nat.ne_of_lt (h.tid_lt c cth hcf)
      refine ⟨cth, ?_, hcn⟩
      rw [ha5 c hct hcQ, pc_k4_find, if_neg hct]
      exact hcf
    · intro t th hfB
      rw [ha7]
      show t < k.next_tid + 1
      rcases hback t th hfB with ⟨ht, _⟩ | ⟨th0, hf0, _⟩
      · omega
      · exact Nat.lt_succ_of_lt (h.tid_lt t th0 hf0)
    · intro t th hfB
      rw [ha8]
      show th.process < k.next_pid + 1
      rcases hback t th hfB with ⟨_, hp⟩ | ⟨th0, hf0, hp⟩
      · omega
      · rw [hp]
        exact Nat.lt_succ_of_lt (h.proc_lt t th0 hf0)
    · intro pr hpr
      rw [ha9, pc_k4_procs k name entry hplt, List.mem_cons] at hpr
      rcases hpr with hpr | hpr
      · subst hpr
        refine ⟨?_, k.next_tid, rfl, ⟨nth, hnth, hnthp'⟩, ?_⟩
        · show k.next_pid < (scheduler_add_thread (pc_k4 k name entry)
            k.next_tid).next_pid
          rw [ha8]
          show k.next_pid < k.next_pid + 1
          omega
        · intro t th hfB hp
          rcases hback t th hfB with ⟨ht, _⟩ | ⟨th0, hf0, hpe⟩
          · exact ht
          · exfalso
            have hpp : th.process = k.next_pid := hp
            rw [hpp] at hpe
            exact Nat.lt_irrefl _ (hpe ▸ h.proc_lt t th0 hf0)
      · obtain ⟨hlt, mt, hml, ⟨mth, hmf, hmp⟩, huniq⟩ := h.procs_inv pr hpr
        have hmt : mt ≠ k.next_tid := Nat.ne_of_lt (h.tid_lt mt mth hmf)
        refine ⟨?_, mt, hml, ?_, ?_⟩
        · rw [ha8]
          exact Nat.lt_succ_of_lt hlt
        · have hfk4 : thread_find (pc_k4 k name entry) mt = some mth := by
            rw [pc_k4_find, if_neg hmt]
            exact hmf
          obtain ⟨mth', hf', _, hp'⟩ := ha3 mt mth hfk4
          exact ⟨mth', hf', by rw [hp']; exact hmp⟩
        · intro t th hfB hp
          rcases hback t th hfB with ⟨ht, hpn⟩ | ⟨th0, hf0, hpe⟩
          · exfalso
            rw [hp] at hpn
            exact Nat.lt_irrefl _ (hpn ▸ hlt)
          · exact huniq t th0 hf0 (by rw [← hpe]; exact hp)
    · rw [ha9, pc_k4_procs k name entry hplt, List.map_cons, List.nodup_cons]
      refine ⟨?_, h.pid_nodup⟩
      intro hm
      obtain ⟨pr, hpr, hpe⟩ := List.mem_map.mp hm
      have hpe' : pr.pid = k.next_pid := hpe
      have := hplt pr hpr
      omega
  exact ⟨Q ++ [k.next_tid], KQInv_process_update _ (Q ++ [k.next_tid])
    k.next_pid (fun pr => { pr with main_thread := some k.next_tid })
    (fun pr => rfl) (fun pr => rfl) hADD⟩

theorem kstep_inv (k : Kernel) (op : KOp) (h : KInv k) : KInv (kstep k op) := by
  obtain ⟨Q, hQ⟩ := h
  cases op with
  | procCreate name entry => exact process_create_inv k Q hQ name entry
  | tick => exact scheduler_tick_inv k Q hQ
  | yield => exact scheduler_yield_inv k Q hQ
  | start => exact scheduler_start_inv k Q hQ
  | threadExit => exact thread_exit_inv k Q hQ
  | procExit code => exact process_exit_inv k Q hQ code

theorem krun_inv_aux (ops : List KOp) :
    ∀ (k : Kernel), KInv k → KInv (ops.foldl kstep k) := by
  induction ops with
  | nil =>
      intro k hk
      exact hk
  | cons op ops ih =>
      intro k hk
      exact ih (kstep k op) (kstep_inv k op hk)

/-- C5 as amended: under the kernel-facing scheduler operations — process
creation through `process_create` (each process getting exactly its own
main thread), `scheduler_start`, `scheduler_tick`, `scheduler_yield`,
`thread_exit` and `process_exit` — every kernel reachable from
`scheduler_init` satisfies the ready-queue invariant: the queue holds no
duplicates and every queued thread is in the READY state.  The
unrestricted claim is false (see the counterexample): a second
`thread_create` into an already-populated process overwrites the shared
`next`/`prev` links (process.c:189-191) and corrupts the queue. -/
theorem ready_queue_invariant_holds (ops : List KOp) :
    ready_queue_ok (krun ops) := by
  rw [krun]
  obtain ⟨Q, hQ⟩ := krun_inv_aux ops (scheduler_init kernel0) ⟨[], KInv_boot⟩
  exact ready_queue_ok_of_inv _ Q hQ

/-- The amended C5 theorem applied at a concrete trace: create a process
with a main thread, start the scheduler, run one tick. -/
theorem ready_queue_invariant_holds_witness :
    ready_queue_ok (krun [KOp.procCreate "A" 7, KOp.start, KOp.tick]) :=
  ready_queue_invariant_holds [KOp.procCreate "A" 7, KOp.start, KOp.tick]
